import Mathlib

/-!
Verification of the wasm-utils module post-processor against its specification.

The Rust sources are shallowly embedded: each Rust function relevant to a
claim is translated into an executable Lean definition operating on a
structural model of a WebAssembly module.  Machine integers (u32/i32/usize)
are modelled by Nat/Int; Rust panics and `Result` errors are modelled with
`Except`; section absence is modelled by `Option` where the source
distinguishes an absent section from an empty one.
-/

set_option maxRecDepth 10000
set_option maxHeartbeats 2000000

namespace WasmUtils

/-- Value types of wasm MVP. -/
inductive ValueType where
  | i32 | i64 | f32 | f64
deriving DecidableEq, Repr

/-- Block type immediate of structured control instructions. -/
inductive BlockType where
  | noResult
  | value (t : ValueType)
deriving DecidableEq, Repr

/-- Flat instruction list form of `parity_wasm::elements::Instruction`
(one constructor per match arm of `InstructionType::op` in rules.rs).
Immediates: indices as Nat, i32/i64 consts as Int, f32/f64 consts as raw
bit patterns (Nat), load/store immediates as (align, offset). -/
inductive Instruction where
  | unreachable
  | nop
  | block (t : BlockType)
  | loopOp (t : BlockType)
  | ifOp (t : BlockType)
  | elseOp
  | endOp
  | br (depth : Nat)
  | brIf (depth : Nat)
  | brTable (table : List Nat) (default : Nat)
  | returnOp
  | call (idx : Nat)
  | callIndirect (typeIdx : Nat) (reserved : Nat)
  | drop
  | select
  | getLocal (idx : Nat)
  | setLocal (idx : Nat)
  | teeLocal (idx : Nat)
  | getGlobal (idx : Nat)
  | setGlobal (idx : Nat)
  | i32Load (a o : Nat) | i64Load (a o : Nat) | f32Load (a o : Nat) | f64Load (a o : Nat)
  | i32Load8S (a o : Nat) | i32Load8U (a o : Nat) | i32Load16S (a o : Nat) | i32Load16U (a o : Nat)
  | i64Load8S (a o : Nat) | i64Load8U (a o : Nat) | i64Load16S (a o : Nat) | i64Load16U (a o : Nat)
  | i64Load32S (a o : Nat) | i64Load32U (a o : Nat)
  | i32Store (a o : Nat) | i64Store (a o : Nat) | f32Store (a o : Nat) | f64Store (a o : Nat)
  | i32Store8 (a o : Nat) | i32Store16 (a o : Nat)
  | i64Store8 (a o : Nat) | i64Store16 (a o : Nat) | i64Store32 (a o : Nat)
  | currentMemory (mem : Nat)
  | growMemory (mem : Nat)
  | i32Const (v : Int)
  | i64Const (v : Int)
  | f32Const (bits : Nat)
  | f64Const (bits : Nat)
  | i32Eqz | i32Eq | i32Ne | i32LtS | i32LtU | i32GtS | i32GtU | i32LeS | i32LeU | i32GeS | i32GeU
  | i64Eqz | i64Eq | i64Ne | i64LtS | i64LtU | i64GtS | i64GtU | i64LeS | i64LeU | i64GeS | i64GeU
  | f32Eq | f32Ne | f32Lt | f32Gt | f32Le | f32Ge
  | f64Eq | f64Ne | f64Lt | f64Gt | f64Le | f64Ge
  | i32Clz | i32Ctz | i32Popcnt
  | i32Add | i32Sub | i32Mul | i32DivS | i32DivU | i32RemS | i32RemU
  | i32And | i32Or | i32Xor | i32Shl | i32ShrS | i32ShrU | i32Rotl | i32Rotr
  | i64Clz | i64Ctz | i64Popcnt
  | i64Add | i64Sub | i64Mul | i64DivS | i64DivU | i64RemS | i64RemU
  | i64And | i64Or | i64Xor | i64Shl | i64ShrS | i64ShrU | i64Rotl | i64Rotr
  | f32Abs | f32Neg | f32Ceil | f32Floor | f32Trunc | f32Nearest | f32Sqrt
  | f32Add | f32Sub | f32Mul | f32Div | f32Min | f32Max | f32Copysign
  | f64Abs | f64Neg | f64Ceil | f64Floor | f64Trunc | f64Nearest | f64Sqrt
  | f64Add | f64Sub | f64Mul | f64Div | f64Min | f64Max | f64Copysign
  | i32WrapI64 | i64ExtendSI32 | i64ExtendUI32
  | i32TruncSF32 | i32TruncUF32 | i32TruncSF64 | i32TruncUF64
  | i64TruncSF32 | i64TruncUF32 | i64TruncSF64 | i64TruncUF64
  | f32ConvertSI32 | f32ConvertUI32 | f32ConvertSI64 | f32ConvertUI64 | f32DemoteF64
  | f64ConvertSI32 | f64ConvertUI32 | f64ConvertSI64 | f64ConvertUI64 | f64PromoteF32
  | i32ReinterpretF32 | i64ReinterpretF64 | f32ReinterpretI32 | f64ReinterpretI64
deriving Repr

/-- Instruction categories of rules.rs (`InstructionType`).  The Rust
variants `Local` and `Global` are rendered `localVar`/`globalVar` because
`local` is a Lean keyword. -/
inductive InstructionType where
  | bit | add | mul | div | load | store | const | floatConst
  | localVar | globalVar
  | controlFlow | integerComparsion | floatComparsion | float
  | conversion | floatConversion | reinterpretation
  | unreachable | nop | currentMemory | growMemory
deriving DecidableEq, Repr

namespace InstructionType

/-- rules.rs `InstructionType::op`: category of each opcode. -/
def op : Instruction → InstructionType
  | .unreachable => .unreachable
  | .nop => .nop
  | .block _ => .controlFlow
  | .loopOp _ => .controlFlow
  | .ifOp _ => .controlFlow
  | .elseOp => .controlFlow
  | .endOp => .controlFlow
  | .br _ => .controlFlow
  | .brIf _ => .controlFlow
  | .brTable _ _ => .controlFlow
  | .returnOp => .controlFlow
  | .call _ => .controlFlow
  | .callIndirect _ _ => .controlFlow
  | .drop => .controlFlow
  | .select => .controlFlow
  | .getLocal _ => .localVar
  | .setLocal _ => .localVar
  | .teeLocal _ => .localVar
  | .getGlobal _ => .localVar
  | .setGlobal _ => .localVar
  | .i32Load _ _ => .load
  | .i64Load _ _ => .load
  | .f32Load _ _ => .load
  | .f64Load _ _ => .load
  | .i32Load8S _ _ => .load
  | .i32Load8U _ _ => .load
  | .i32Load16S _ _ => .load
  | .i32Load16U _ _ => .load
  | .i64Load8S _ _ => .load
  | .i64Load8U _ _ => .load
  | .i64Load16S _ _ => .load
  | .i64Load16U _ _ => .load
  | .i64Load32S _ _ => .load
  | .i64Load32U _ _ => .load
  | .i32Store _ _ => .store
  | .i64Store _ _ => .store
  | .f32Store _ _ => .store
  | .f64Store _ _ => .store
  | .i32Store8 _ _ => .store
  | .i32Store16 _ _ => .store
  | .i64Store8 _ _ => .store
  | .i64Store16 _ _ => .store
  | .i64Store32 _ _ => .store
  | .currentMemory _ => .currentMemory
  | .growMemory _ => .growMemory
  | .i32Const _ => .const
  | .i64Const _ => .const
  | .f32Const _ => .floatConst
  | .f64Const _ => .floatConst
  | .i32Eqz => .integerComparsion
  | .i32Eq => .integerComparsion
  | .i32Ne => .integerComparsion
  | .i32LtS => .integerComparsion
  | .i32LtU => .integerComparsion
  | .i32GtS => .integerComparsion
  | .i32GtU => .integerComparsion
  | .i32LeS => .integerComparsion
  | .i32LeU => .integerComparsion
  | .i32GeS => .integerComparsion
  | .i32GeU => .integerComparsion
  | .i64Eqz => .integerComparsion
  | .i64Eq => .integerComparsion
  | .i64Ne => .integerComparsion
  | .i64LtS => .integerComparsion
  | .i64LtU => .integerComparsion
  | .i64GtS => .integerComparsion
  | .i64GtU => .integerComparsion
  | .i64LeS => .integerComparsion
  | .i64LeU => .integerComparsion
  | .i64GeS => .integerComparsion
  | .i64GeU => .integerComparsion
  | .f32Eq => .floatComparsion
  | .f32Ne => .floatComparsion
  | .f32Lt => .floatComparsion
  | .f32Gt => .floatComparsion
  | .f32Le => .floatComparsion
  | .f32Ge => .floatComparsion
  | .f64Eq => .floatComparsion
  | .f64Ne => .floatComparsion
  | .f64Lt => .floatComparsion
  | .f64Gt => .floatComparsion
  | .f64Le => .floatComparsion
  | .f64Ge => .floatComparsion
  | .i32Clz => .bit
  | .i32Ctz => .bit
  | .i32Popcnt => .bit
  | .i32Add => .add
  | .i32Sub => .add
  | .i32Mul => .mul
  | .i32DivS => .div
  | .i32DivU => .div
  | .i32RemS => .div
  | .i32RemU => .div
  | .i32And => .bit
  | .i32Or => .bit
  | .i32Xor => .bit
  | .i32Shl => .bit
  | .i32ShrS => .bit
  | .i32ShrU => .bit
  | .i32Rotl => .bit
  | .i32Rotr => .bit
  | .i64Clz => .bit
  | .i64Ctz => .bit
  | .i64Popcnt => .bit
  | .i64Add => .add
  | .i64Sub => .add
  | .i64Mul => .mul
  | .i64DivS => .div
  | .i64DivU => .div
  | .i64RemS => .div
  | .i64RemU => .div
  | .i64And => .bit
  | .i64Or => .bit
  | .i64Xor => .bit
  | .i64Shl => .bit
  | .i64ShrS => .bit
  | .i64ShrU => .bit
  | .i64Rotl => .bit
  | .i64Rotr => .bit
  | .f32Abs => .float
  | .f32Neg => .float
  | .f32Ceil => .float
  | .f32Floor => .float
  | .f32Trunc => .float
  | .f32Nearest => .float
  | .f32Sqrt => .float
  | .f32Add => .float
  | .f32Sub => .float
  | .f32Mul => .float
  | .f32Div => .float
  | .f32Min => .float
  | .f32Max => .float
  | .f32Copysign => .float
  | .f64Abs => .float
  | .f64Neg => .float
  | .f64Ceil => .float
  | .f64Floor => .float
  | .f64Trunc => .float
  | .f64Nearest => .float
  | .f64Sqrt => .float
  | .f64Add => .float
  | .f64Sub => .float
  | .f64Mul => .float
  | .f64Div => .float
  | .f64Min => .float
  | .f64Max => .float
  | .f64Copysign => .float
  | .i32WrapI64 => .conversion
  | .i64ExtendSI32 => .conversion
  | .i64ExtendUI32 => .conversion
  | .i32TruncSF32 => .floatConversion
  | .i32TruncUF32 => .floatConversion
  | .i32TruncSF64 => .floatConversion
  | .i32TruncUF64 => .floatConversion
  | .i64TruncSF32 => .floatConversion
  | .i64TruncUF32 => .floatConversion
  | .i64TruncSF64 => .floatConversion
  | .i64TruncUF64 => .floatConversion
  | .f32ConvertSI32 => .floatConversion
  | .f32ConvertUI32 => .floatConversion
  | .f32ConvertSI64 => .floatConversion
  | .f32ConvertUI64 => .floatConversion
  | .f32DemoteF64 => .floatConversion
  | .f64ConvertSI32 => .floatConversion
  | .f64ConvertUI32 => .floatConversion
  | .f64ConvertSI64 => .floatConversion
  | .f64ConvertUI64 => .floatConversion
  | .f64PromoteF32 => .floatConversion
  | .i32ReinterpretF32 => .reinterpretation
  | .i64ReinterpretF64 => .reinterpretation
  | .f32ReinterpretI32 => .reinterpretation
  | .f64ReinterpretI64 => .reinterpretation

end InstructionType

/-- rules.rs `Metering`. -/
inductive Metering where
  | regular
  | forbidden
  | fixed (v : Nat)
deriving DecidableEq, Repr

/-- rules.rs `Set`.  The `HashMap<InstructionType, Metering>` is modelled
by its lookup function (`entries.get`). -/
structure RuleSet where
  regular : Nat
  entries : InstructionType → Option Metering
  grow : Nat

/-- rules.rs `Set::default()`. -/
def RuleSet.default : RuleSet :=
  { regular := 1, entries := fun _ => none, grow := 0 }

/-- rules.rs `Set::process`: cost of an opcode, or `Err` when forbidden. -/
def RuleSet.process (s : RuleSet) (opcode : Instruction) : Except Unit Nat :=
  match s.entries (InstructionType.op opcode) with
  | none => .ok s.regular
  | some .regular => .ok s.regular
  | some .forbidden => .error ()
  | some (.fixed v) => .ok v

/-- Cost that `Set::process` assigns through a given category; by
definition `process s op = processType s (InstructionType.op op)`. -/
def RuleSet.processType (s : RuleSet) (t : InstructionType) : Except Unit Nat :=
  match s.entries t with
  | none => .ok s.regular
  | some .regular => .ok s.regular
  | some .forbidden => .error ()
  | some (.fixed v) => .ok v

/-- rules.rs `Set::with_forbidden_floats`. -/
def RuleSet.withForbiddenFloats (s : RuleSet) : RuleSet :=
  { s with entries := fun t =>
      if t = .float ∨ t = .floatComparsion ∨ t = .floatConst ∨ t = .floatConversion
      then some .forbidden else s.entries t }

/-- rules.rs `Set::with_grow_cost`. -/
def RuleSet.withGrowCost (s : RuleSet) (v : Nat) : RuleSet :=
  { s with grow := v }

/-- A rule set with one category's metering overridden (the effect of
`entries.insert(ty, m)` on the lookup function). -/
def RuleSet.withEntry (s : RuleSet) (ty : InstructionType) (m : Metering) : RuleSet :=
  { s with entries := fun t => if t = ty then some m else s.entries t }

/-! ## Structural module model

The flat-instruction structural module shared by gas.rs, stack_height,
pack.rs and ext.rs.  Sections are `Option`s: `none` models an absent
section, mirroring `parity_wasm::elements::Module`'s list of sections in
canonical order (custom sections are not modelled). -/

/-- `elements::FunctionType` (MVP: at most one result). -/
structure FuncType where
  params : List ValueType
  ret : Option ValueType
deriving DecidableEq, Repr

/-- Table or memory limits. -/
structure Limits where
  initial : Nat
  maximum : Option Nat
deriving DecidableEq, Repr

/-- `elements::External` of an import entry. -/
inductive ExternalDesc where
  | func (typeRef : Nat)
  | table (limits : Limits)
  | memory (limits : Limits)
  | global (content : ValueType) (isMut : Bool)
deriving DecidableEq, Repr

/-- `elements::ImportEntry`. -/
structure ImportEntry where
  module : String
  field : String
  desc : ExternalDesc
deriving DecidableEq, Repr

/-- `elements::Internal` of an export entry. -/
inductive ExportInternal where
  | func (idx : Nat)
  | table (idx : Nat)
  | memory (idx : Nat)
  | global (idx : Nat)
deriving DecidableEq, Repr

/-- `elements::ExportEntry`. -/
structure ExportEntry where
  field : String
  internal : ExportInternal
deriving DecidableEq, Repr

/-- `elements::GlobalEntry` (the init expression as a flat list). -/
structure GlobalEntry where
  content : ValueType
  isMut : Bool
  init : List Instruction
deriving Repr

/-- `elements::ElementSegment`. -/
structure ElementSegment where
  index : Nat
  offset : List Instruction
  members : List Nat
deriving Repr

/-- `elements::DataSegment` (value = raw bytes). -/
structure DataSegment where
  index : Nat
  offset : List Instruction
  value : List Nat
deriving Repr

/-- `elements::FuncBody`: local declarations (count, type) and code. -/
structure FuncBody where
  locals : List (Nat × ValueType)
  code : List Instruction
deriving Repr

/-- Structural wasm module with sections in canonical order. -/
structure Module where
  types : Option (List FuncType) := none
  imports : Option (List ImportEntry) := none
  funcs : Option (List Nat) := none
  tables : Option (List Limits) := none
  memories : Option (List Limits) := none
  globals : Option (List GlobalEntry) := none
  exports : Option (List ExportEntry) := none
  start : Option Nat := none
  elements : Option (List ElementSegment) := none
  code : Option (List FuncBody) := none
  data : Option (List DataSegment) := none
deriving Repr

/-- True for function imports. -/
def ImportEntry.isFunc (e : ImportEntry) : Bool :=
  match e.desc with
  | .func _ => true
  | _ => false

/-- `import_count(ImportCountType::Function)`. -/
def Module.importedFunctions (m : Module) : Nat :=
  (m.imports.getD []).countP (fun e => e.isFunc)

/-- `functions_space()`: imported functions first, then defined ones. -/
def Module.functionsSpace (m : Module) : Nat :=
  m.importedFunctions + (m.funcs.getD []).length

/-- `import_count(ImportCountType::Global)`. -/
def Module.importedGlobals (m : Module) : Nat :=
  (m.imports.getD []).countP (fun e =>
    match e.desc with
    | .global _ _ => true
    | _ => false)

/-- `globals_space()`. -/
def Module.globalsSpace (m : Module) : Nat :=
  m.importedGlobals + (m.globals.getD []).length

/-- The unsigned 32-bit maximum (bound used by `u32::checked_add`). -/
def u32Max : Nat := 4294967295

/-- `u32 as i32` reinterpretation. -/
def u32ToI32 (n : Nat) : Int :=
  if n < 2147483648 then (n : Int) else (n : Int) - 4294967296

/-- Stable insertion used by `stableSort`. -/
def sortedInsert (le : α → α → Bool) (x : α) : List α → List α
  | [] => [x]
  | y :: ys => if le y x then y :: sortedInsert le x ys else x :: y :: ys

/-- Stable sort, modelling `Vec::sort` / `sort_by_key` (structurally
recursive so that concrete runs reduce definitionally). -/
def stableSort (le : α → α → Bool) (l : List α) : List α :=
  l.foldl (fun acc x => sortedInsert le x acc) []

/-! ## gas.rs — the gas metering injector -/

namespace Gas

/-- gas.rs `update_call_index`: all calls to function index >= the inserted
index are incremented. -/
def updateCallIndex (code : List Instruction) (insertedIndex : Nat) : List Instruction :=
  code.map fun instruction =>
    match instruction with
    | .call callIndex => .call (if insertedIndex ≤ callIndex then callIndex + 1 else callIndex)
    | other => other

/-- gas.rs `BlockEntry`: start position and accumulated cost of one block. -/
structure BlockEntry where
  startPos : Nat
  cost : Nat
deriving DecidableEq, Repr

/-- gas.rs `Counter`.  The stack of open blocks is kept top-first (the
Rust `Vec` pushes and pops at its end). -/
structure Counter where
  blocks : List BlockEntry
  stack : List Nat
deriving Repr

/-- gas.rs `Counter::new`. -/
def Counter.new : Counter := { blocks := [], stack := [] }

/-- gas.rs `Counter::begin`: open a new block with initial cost 1. -/
def Counter.begin (c : Counter) (cursor : Nat) : Counter :=
  { blocks := c.blocks ++ [{ startPos := cursor, cost := 1 }],
    stack := c.blocks.length :: c.stack }

/-- gas.rs `Counter::finalize`: close the current block. -/
def Counter.finalize (c : Counter) : Except Unit Counter :=
  match c.stack with
  | [] => .error ()
  | _ :: rest => .ok { c with stack := rest }

/-- gas.rs `Counter::increment`: add to the cost of the innermost open
block, failing on u32 overflow (`checked_add`). -/
def Counter.increment (c : Counter) (val : Nat) : Except Unit Counter :=
  match c.stack with
  | [] => .error ()
  | stackTop :: _ =>
    match c.blocks[stackTop]? with
    | none => .error ()
    | some topBlock =>
      if topBlock.cost + val ≤ u32Max then
        .ok { c with blocks := c.blocks.set stackTop { topBlock with cost := topBlock.cost + val } }
      else
        .error ()

/-- The per-instruction pass of gas.rs `inject_counter` (the `for cursor`
loop): accumulates block costs in the counter. -/
def injectCounterLoop (rules : RuleSet) : List Instruction → Nat → Counter → Except Unit Counter
  | [], _, c => .ok c
  | instruction :: rest, cursor, c =>
    match instruction with
    | .block _ | .ifOp _ | .loopOp _ => do
      let instructionCost ← rules.process instruction
      let c ← c.increment instructionCost
      injectCounterLoop rules rest (cursor + 1) (c.begin (cursor + 1))
    | .endOp => do
      let c ← c.finalize
      injectCounterLoop rules rest (cursor + 1) c
    | .elseOp => do
      let c ← c.finalize
      injectCounterLoop rules rest (cursor + 1) (c.begin (cursor + 1))
    | _ => do
      let instructionCost ← rules.process instruction
      let c ← c.increment instructionCost
      injectCounterLoop rules rest (cursor + 1) c

/-- The copying loop of gas.rs `insert_metering_calls`: walks the original
instructions, injecting `i32.const cost; call gas` at each block start;
returns the new list and the blocks left unconsumed. -/
def insertLoop (gasFunc : Nat) : List Instruction → Nat → List BlockEntry →
    (List Instruction × List BlockEntry)
  | [], _, blocks => ([], blocks)
  | instr :: rest, originalPos, blocks =>
    match blocks with
    | block :: bs =>
      if block.startPos = originalPos then
        let (tail, rem) := insertLoop gasFunc rest (originalPos + 1) bs
        (.i32Const (u32ToI32 block.cost) :: .call gasFunc :: instr :: tail, rem)
      else
        let (tail, rem) := insertLoop gasFunc rest (originalPos + 1) (block :: bs)
        (instr :: tail, rem)
    | [] =>
      let (tail, rem) := insertLoop gasFunc rest (originalPos + 1) []
      (instr :: tail, rem)

/-- gas.rs `inject_counter`; on failure the error carries the body as the
in-place mutation left it (unchanged for a counting-phase failure, spliced
for a leftover-block failure). -/
def injectCounter (instructions : List Instruction) (rules : RuleSet) (gasFunc : Nat) :
    Except (List Instruction) (List Instruction) :=
  match injectCounterLoop rules instructions 0 (Counter.new.begin 0) with
  | .error () => .error instructions
  | .ok counter =>
    let (res, rem) := insertLoop gasFunc instructions 0 counter.blocks
    if rem.isEmpty then .ok res else .error res

/-- gas.rs `inject_grow_counter`: replace every `grow_memory` with a call
to the grow counter function, returning the replacement count. -/
def injectGrowCounter (instructions : List Instruction) (growCounterFunc : Nat) :
    (List Instruction × Nat) :=
  match instructions with
  | [] => ([], 0)
  | .growMemory _ :: rest =>
    let (tail, n) := injectGrowCounter rest growCounterFunc
    (.call growCounterFunc :: tail, n + 1)
  | instr :: rest =>
    let (tail, n) := injectGrowCounter rest growCounterFunc
    (instr :: tail, n)

/-- gas.rs `add_grow_counter`: append the `grow_counter` function (its
signature is appended to the type section by the builder). -/
def addGrowCounter (m : Module) (rules : RuleSet) (gasFunc : Nat) : Module :=
  let growBody : FuncBody :=
    { locals := [],
      code := [.getLocal 0, .getLocal 0, .i32Const (u32ToI32 rules.grow), .i32Mul,
               .call gasFunc, .growMemory 0, .endOp] }
  { m with
    types := some ((m.types.getD []) ++ [{ params := [.i32], ret := some .i32 }]),
    funcs := some ((m.funcs.getD []) ++ [(m.types.getD []).length]),
    code := some ((m.code.getD []) ++ [growBody]) }

/-- The code-section loop of `inject_gas_counter`: bodies are processed in
order; the first body whose `inject_counter` fails stops the loop (later
bodies keep their original content).  Returns the bodies, the error flag
and the need-grow-counter flag. -/
def processBodies (rules : RuleSet) (gasFunc totalFunc : Nat) :
    List FuncBody → (List FuncBody × Bool × Bool)
  | [] => ([], false, false)
  | body :: rest =>
    let code1 := updateCallIndex body.code gasFunc
    match injectCounter code1 rules gasFunc with
    | .error bad => ({ body with code := bad } :: rest, true, false)
    | .ok code2 =>
      if rules.grow > 0 then
        let (code3, cnt) := injectGrowCounter code2 totalFunc
        let (rest', err, needGrow) := processBodies rules gasFunc totalFunc rest
        ({ body with code := code3 } :: rest', err, needGrow || decide (0 < cnt))
      else
        let (rest', err, needGrow) := processBodies rules gasFunc totalFunc rest
        ({ body with code := code2 } :: rest', err, needGrow)

/-- Export-section shift of `inject_gas_counter`. -/
def shiftExport (gasFunc : Nat) (e : ExportEntry) : ExportEntry :=
  match e.internal with
  | .func funcIndex =>
    { e with internal := .func (if gasFunc ≤ funcIndex then funcIndex + 1 else funcIndex) }
  | _ => e

/-- Element-section shift of `inject_gas_counter` (segment members only). -/
def shiftSegment (gasFunc : Nat) (s : ElementSegment) : ElementSegment :=
  { s with members := s.members.map (fun funcIndex =>
      if gasFunc ≤ funcIndex then funcIndex + 1 else funcIndex) }

/-- All section rewrites of `inject_gas_counter` after the import is added:
returns the rewritten module together with the error and need-grow flags. -/
def gasProcessed (m : Module) (rules : RuleSet) : (Module × Bool × Bool) :=
  let importSig := (m.types.getD []).length
  let m1 : Module := { m with
    types := some ((m.types.getD []) ++ [{ params := [.i32], ret := none }]),
    imports := some ((m.imports.getD []) ++ [{ module := "env", field := "gas", desc := .func importSig }]) }
  let gasFunc := m1.importedFunctions - 1
  let totalFunc := m1.functionsSpace
  let pb := processBodies rules gasFunc totalFunc (m1.code.getD [])
  ({ m1 with
      exports := m1.exports.map (List.map (shiftExport gasFunc)),
      elements := m1.elements.map (List.map (shiftSegment gasFunc)),
      start := m1.start.map (fun s => if gasFunc ≤ s then s + 1 else s),
      code := m1.code.map (fun _ => pb.1) },
   pb.2.1, pb.2.2)

/-- gas.rs `inject_gas_counter`.  Note that the gas import has already
been added and the function indices shifted in the module carried by the
error variant. -/
def injectGasCounter (m : Module) (rules : RuleSet) : Except Module Module :=
  let t := gasProcessed m rules
  let gasFunc := (m.imports.getD []).countP (fun e => e.isFunc)
  if t.2.1 then .error t.1
  else if t.2.2 then .ok (addGrowCounter t.1 rules gasFunc) else .ok t.1

end Gas

/-! ## stack_height/mod.rs — the stack height limiter -/

namespace StackHeight

/-- The slice of the `rules::Set` interface consumed by stack_height
(this snapshot's rules.rs does not carry the `stack_limit` field, so the
limiter's rule parameter is modelled by that single value). -/
structure StackRules where
  stackLimit : Nat
deriving DecidableEq, Repr

/-- stack_height `instrument_call!`: preamble (increment + limit check),
the original call, postamble (decrement). -/
def instrumentCall (calleeIdx stackHeightGlobalIdx : Nat)
    (calleeStackCost stackLimit : Int) : List Instruction :=
  [ .getGlobal stackHeightGlobalIdx,
    .i32Const calleeStackCost,
    .i32Add,
    .setGlobal stackHeightGlobalIdx,
    .getGlobal stackHeightGlobalIdx,
    .i32Const stackLimit,
    .i32GtU,
    .ifOp .noResult,
    .unreachable,
    .endOp,
    .call calleeIdx,
    .getGlobal stackHeightGlobalIdx,
    .i32Const calleeStackCost,
    .i32Sub,
    .setGlobal stackHeightGlobalIdx ]

/-- stack_height `instrument_function`: every `call` is spliced into the
wrapped sequence; the cursor then advances past the inserted sequence, so
the scan resumes right after it — equivalently, each original instruction
is expanded independently.  Fails (source: slice-index panic) when a call
target has no stack-cost entry. -/
def instrumentFunction (stackHeightGlobalIdx : Nat) (funcsStackCosts : List Nat)
    (stackLimit : Nat) : List Instruction → Except String (List Instruction)
  | [] => .ok []
  | .call calleeIdx :: rest =>
    match funcsStackCosts[calleeIdx]? with
    | none => .error "stack cost index out of bounds"
    | some calleeStackCost => do
      let tail ← instrumentFunction stackHeightGlobalIdx funcsStackCosts stackLimit rest
      .ok (instrumentCall calleeIdx stackHeightGlobalIdx
             (u32ToI32 calleeStackCost) (u32ToI32 stackLimit) ++ tail)
  | instr :: rest => do
    let tail ← instrumentFunction stackHeightGlobalIdx funcsStackCosts stackLimit rest
    .ok (instr :: tail)

/-- stack_height `resolve_func_type`: signature of a function in the
combined index space. -/
def resolveFuncType (funcIdx : Nat) (m : Module) : Except String FuncType :=
  match m.funcs, m.types with
  | some funcSection, some typeSection =>
    let funcImports := m.importedFunctions
    let sigIdx : Except String Nat :=
      if funcIdx < funcImports then
        match ((m.imports.getD []).filterMap (fun e =>
          match e.desc with
          | .func idx => some idx
          | _ => none))[funcIdx]? with
        | none => .error "import signature lookup failed"
        | some idx => .ok idx
      else
        match funcSection[funcIdx - funcImports]? with
        | none => .error "function entry out of bounds"
        | some idx => .ok idx
    match sigIdx with
    | .error e => .error e
    | .ok idx =>
      match typeSection[idx]? with
      | none => .error "type entry out of bounds"
      | some t => .ok t
  | _, _ => .error "function or type section missing"

/-- Result arity of a block type. -/
def blockArity : BlockType → Nat
  | .noResult => 0
  | .value _ => 1

/-- Result arity of a function type. -/
def retArity (t : FuncType) : Nat :=
  match t.ret with
  | none => 0
  | some _ => 1

/-- Static (pops, pushes) of the non-control instructions, used by the
abstract interpreter below; `none` for the control instructions it
handles separately. -/
def staticPP : Instruction → Option (Nat × Nat)
  | .nop => some (0, 0)
  | .drop => some (1, 0)
  | .select => some (3, 1)
  | .getLocal _ => some (0, 1)
  | .setLocal _ => some (1, 0)
  | .teeLocal _ => some (1, 1)
  | .getGlobal _ => some (0, 1)
  | .setGlobal _ => some (1, 0)
  | .currentMemory _ => some (0, 1)
  | .growMemory _ => some (1, 1)
  | .i32Const _ => some (0, 1)
  | .i64Const _ => some (0, 1)
  | .f32Const _ => some (0, 1)
  | .f64Const _ => some (0, 1)
  | .i32Load _ _ => some (1, 1)
  | .i64Load _ _ => some (1, 1)
  | .f32Load _ _ => some (1, 1)
  | .f64Load _ _ => some (1, 1)
  | .i32Load8S _ _ => some (1, 1)
  | .i32Load8U _ _ => some (1, 1)
  | .i32Load16S _ _ => some (1, 1)
  | .i32Load16U _ _ => some (1, 1)
  | .i64Load8S _ _ => some (1, 1)
  | .i64Load8U _ _ => some (1, 1)
  | .i64Load16S _ _ => some (1, 1)
  | .i64Load16U _ _ => some (1, 1)
  | .i64Load32S _ _ => some (1, 1)
  | .i64Load32U _ _ => some (1, 1)
  | .i32Store _ _ => some (2, 0)
  | .i64Store _ _ => some (2, 0)
  | .f32Store _ _ => some (2, 0)
  | .f64Store _ _ => some (2, 0)
  | .i32Store8 _ _ => some (2, 0)
  | .i32Store16 _ _ => some (2, 0)
  | .i64Store8 _ _ => some (2, 0)
  | .i64Store16 _ _ => some (2, 0)
  | .i64Store32 _ _ => some (2, 0)
  | .i32Eqz => some (1, 1)
  | .i64Eqz => some (1, 1)
  | .i32Clz => some (1, 1)
  | .i32Ctz => some (1, 1)
  | .i32Popcnt => some (1, 1)
  | .i64Clz => some (1, 1)
  | .i64Ctz => some (1, 1)
  | .i64Popcnt => some (1, 1)
  | .f32Abs => some (1, 1)
  | .f32Neg => some (1, 1)
  | .f32Ceil => some (1, 1)
  | .f32Floor => some (1, 1)
  | .f32Trunc => some (1, 1)
  | .f32Nearest => some (1, 1)
  | .f32Sqrt => some (1, 1)
  | .f64Abs => some (1, 1)
  | .f64Neg => some (1, 1)
  | .f64Ceil => some (1, 1)
  | .f64Floor => some (1, 1)
  | .f64Trunc => some (1, 1)
  | .f64Nearest => some (1, 1)
  | .f64Sqrt => some (1, 1)
  | .i32WrapI64 => some (1, 1)
  | .i64ExtendSI32 => some (1, 1)
  | .i64ExtendUI32 => some (1, 1)
  | .i32TruncSF32 => some (1, 1)
  | .i32TruncUF32 => some (1, 1)
  | .i32TruncSF64 => some (1, 1)
  | .i32TruncUF64 => some (1, 1)
  | .i64TruncSF32 => some (1, 1)
  | .i64TruncUF32 => some (1, 1)
  | .i64TruncSF64 => some (1, 1)
  | .i64TruncUF64 => some (1, 1)
  | .f32ConvertSI32 => some (1, 1)
  | .f32ConvertUI32 => some (1, 1)
  | .f32ConvertSI64 => some (1, 1)
  | .f32ConvertUI64 => some (1, 1)
  | .f32DemoteF64 => some (1, 1)
  | .f64ConvertSI32 => some (1, 1)
  | .f64ConvertUI32 => some (1, 1)
  | .f64ConvertSI64 => some (1, 1)
  | .f64ConvertUI64 => some (1, 1)
  | .f64PromoteF32 => some (1, 1)
  | .i32ReinterpretF32 => some (1, 1)
  | .i64ReinterpretF64 => some (1, 1)
  | .f32ReinterpretI32 => some (1, 1)
  | .f64ReinterpretI64 => some (1, 1)
  | _ => some (2, 1)

/-- A control frame of the abstract interpreter. -/
structure SHFrame where
  startHeight : Nat
  resultArity : Nat
  unreachableFlag : Bool
deriving DecidableEq, Repr

/-- Modelled from the spec: the body of `max_height::max_stack_height`
is missing from the sources (stack_height/mod.rs declares `mod max_height`
but no max_height.rs is present); this is the §4.5 step-2 abstract
interpreter over one function body — a control-frame stack, a running
height and a running maximum; `Block`/`Loop`/`If` push a frame, `Else`
re-opens the frame at its entry height, `End` pops and restores the entry
height plus the result arity, `Br`/`BrIf`/`BrTable`/`Return` (and the
`unreachable` trap) mark the frame unreachable, in which case height
changes are skipped until the next `Else`/`End`; underflow, unbalanced
frames or a missing type are errors. -/
def maxLoop (m : Module) : List Instruction → Nat → Nat → List SHFrame → Except String Nat
  | [], _, maxH, frames =>
    if frames.isEmpty then .ok maxH else .error "unbalanced control frames"
  | instr :: rest, height, maxH, frames =>
    match frames with
    | [] => .error "instruction after final end"
    | frame :: outer =>
      match instr with
      | .block bt | .loopOp bt =>
        maxLoop m rest height maxH
          ({ startHeight := height, resultArity := blockArity bt,
             unreachableFlag := frame.unreachableFlag } :: frame :: outer)
      | .ifOp bt =>
        if frame.unreachableFlag then
          maxLoop m rest height maxH
            ({ startHeight := height, resultArity := blockArity bt,
               unreachableFlag := true } :: frame :: outer)
        else if height < 1 then .error "stack underflow"
        else
          maxLoop m rest (height - 1) maxH
            ({ startHeight := height - 1, resultArity := blockArity bt,
               unreachableFlag := false } :: frame :: outer)
      | .elseOp =>
        maxLoop m rest frame.startHeight maxH
          ({ frame with unreachableFlag := false } :: outer)
      | .endOp =>
        let height' := frame.startHeight + frame.resultArity
        maxLoop m rest height' (max maxH height') outer
      | .br _ | .brIf _ | .brTable _ _ | .returnOp | .unreachable =>
        maxLoop m rest height maxH ({ frame with unreachableFlag := true } :: outer)
      | .call funcIdx =>
        if frame.unreachableFlag then maxLoop m rest height maxH (frame :: outer)
        else
          match resolveFuncType funcIdx m with
          | .error e => .error e
          | .ok t =>
            if height < t.params.length then .error "stack underflow"
            else
              let height' := height - t.params.length + retArity t
              maxLoop m rest height' (max maxH height') (frame :: outer)
      | .callIndirect typeIdx _ =>
        if frame.unreachableFlag then maxLoop m rest height maxH (frame :: outer)
        else
          match (m.types.getD [])[typeIdx]? with
          | none => .error "missing type"
          | some t =>
            if height < t.params.length + 1 then .error "stack underflow"
            else
              let height' := height - (t.params.length + 1) + retArity t
              maxLoop m rest height' (max maxH height') (frame :: outer)
      | other =>
        if frame.unreachableFlag then maxLoop m rest height maxH (frame :: outer)
        else
          match staticPP other with
          | none => .error "unclassified instruction"
          | some (pops, pushes) =>
            if height < pops then .error "stack underflow"
            else
              let height' := height - pops + pushes
              maxLoop m rest height' (max maxH height') (frame :: outer)

/-- Modelled from the spec: entry point of the missing
`max_height::max_stack_height` — the maximal value-stack height of the
given defined function's body. -/
def maxStackHeight (definedFuncIdx : Nat) (m : Module) : Except String Nat :=
  match (m.code.getD [])[definedFuncIdx]? with
  | none => .error "code body out of bounds"
  | some body =>
    match resolveFuncType (m.importedFunctions + definedFuncIdx) m with
    | .error e => .error e
    | .ok t =>
      maxLoop m body.code 0 0
        [{ startHeight := 0, resultArity := retArity t, unreachableFlag := false }]

/-- stack_height `stack_cost`: locals entry count plus maximal stack
height of a defined function (panics on an import index). -/
def stackCost (funcIdx : Nat) (m : Module) : Except String Nat :=
  let funcImports := m.importedFunctions
  if funcIdx < funcImports then .error "This should be a index of a defined function"
  else
    match m.code with
    | none => .error "Due to validation code section should exists"
    | some bodies =>
      match bodies[funcIdx - funcImports]? with
      | none => .error "code body out of bounds"
      | some body => do
        let maxHeight ← maxStackHeight (funcIdx - funcImports) m
        .ok (body.locals.length + maxHeight)

/-- The `funcs_stack_costs` vector of `inject_stack_counter`: imports keep
cost 0, defined functions get `stack_cost`. -/
def computeCosts (m : Module) : Except String (List Nat) :=
  let funcImports := m.importedFunctions
  (List.range m.functionsSpace).mapM (fun funcIdx =>
    if funcIdx < funcImports then .ok 0 else stackCost funcIdx m)

/-- stack_height `Thunk` (the assigned index is implicit in the list
position of the replacement map below). -/
structure Thunk where
  signature : FuncType
  calleeStackCost : Nat
deriving DecidableEq, Repr

/-- `HashMap::insert` on the replacement map, modelled as an association
list (iteration order is unspecified for the Rust HashMap; insertion order
is used here — no claim depends on the order). -/
def rmapInsert (rm : List (Nat × Thunk)) (k : Nat) (t : Thunk) : List (Nat × Thunk) :=
  if rm.any (fun p => p.1 = k) then
    rm.map (fun p => if p.1 = k then (k, t) else p)
  else rm ++ [(k, t)]

/-- stack_height `add_candidate_thunk`: skip zero-cost callees, otherwise
record signature and cost. -/
def addCandidateThunk (m : Module) (costs : List Nat) (rm : List (Nat × Thunk))
    (funcIdx : Nat) : Except String (List (Nat × Thunk)) :=
  match costs[funcIdx]? with
  | none => .error "stack cost index out of bounds"
  | some calleeStackCost =>
    if calleeStackCost = 0 then .ok rm
    else do
      let signature ← resolveFuncType funcIdx m
      .ok (rmapInsert rm funcIdx { signature := signature, calleeStackCost := calleeStackCost })

/-- The function indices referenced by export entries, in order. -/
def exportFuncIndices (m : Module) : List Nat :=
  (m.exports.getD []).filterMap (fun e =>
    match e.internal with
    | .func funcIdx => some funcIdx
    | _ => none)

/-- The function indices referenced by element segments, in order. -/
def elemFuncIndices (m : Module) : List Nat :=
  ((m.elements.getD []).map (fun s => s.members)).flatten

/-- The replacement-map collection of `inject_stack_counter` (exports
first, then element-segment members). -/
def buildRmap (m : Module) (costs : List Nat) : Except String (List (Nat × Thunk)) :=
  (exportFuncIndices m ++ elemFuncIndices m).foldlM (addCandidateThunk m costs) []

/-- Body of a synthesised thunk: push each parameter in order, the
instrumented call of the original function, then `end`. -/
def thunkBody (origFuncIdx stackHeightGlobalIdx : Nat) (thunk : Thunk)
    (stackLimit : Nat) : List Instruction :=
  (List.range thunk.signature.params.length).map (fun argIdx => .getLocal argIdx)
    ++ instrumentCall origFuncIdx stackHeightGlobalIdx
         (u32ToI32 thunk.calleeStackCost) (u32ToI32 stackLimit)
    ++ [.endOp]

/-- Append the synthesised thunks: the i-th map entry becomes the function
at combined index `functions_space + i` (its signature is appended to the
type section by the builder). -/
def appendThunks (m : Module) (rmap : List (Nat × Thunk)) (stackHeightGlobalIdx : Nat)
    (stackLimit : Nat) : Module :=
  { m with
    types := some ((m.types.getD []) ++ rmap.map (fun p => p.2.signature)),
    funcs := some ((m.funcs.getD []) ++
      (List.range rmap.length).map (fun i => (m.types.getD []).length + i)),
    code := some ((m.code.getD []) ++ rmap.map (fun p =>
      { locals := [], code := thunkBody p.1 stackHeightGlobalIdx p.2 stackLimit })) }

/-- The `fixup` closure of `inject_stack_counter`: an index in the
replacement map is redirected to its assigned thunk index. -/
def fixupIdx (rmap : List (Nat × Thunk)) (base funcIdx : Nat) : Nat :=
  match rmap.findIdx? (fun p => p.1 = funcIdx) with
  | some i => base + i
  | none => funcIdx

/-- Export-section fixup. -/
def fixupExport (rmap : List (Nat × Thunk)) (base : Nat) (e : ExportEntry) : ExportEntry :=
  match e.internal with
  | .func funcIdx => { e with internal := .func (fixupIdx rmap base funcIdx) }
  | _ => e

/-- Element-section fixup. -/
def fixupSegment (rmap : List (Nat × Thunk)) (base : Nat) (s : ElementSegment) : ElementSegment :=
  { s with members := s.members.map (fixupIdx rmap base) }

/-- The stack-height tracking global appended by `inject_stack_counter`
(mutable i32 initialised to 0). -/
def stackGlobalEntry : GlobalEntry :=
  { content := .i32, isMut := true, init := [.i32Const 0, .endOp] }

/-- Step 1 of `inject_stack_counter`: append the tracking global. -/
def withStackGlobal (m : Module) : Module :=
  { m with globals := some ((m.globals.getD []) ++ [stackGlobalEntry]) }

/-- Intermediate state of `inject_stack_counter`, exposing the computed
stack costs, the instrumented module, the replacement map and the base
index of the synthesised thunks. -/
structure SHParts where
  costs : List Nat
  instrumented : Module
  rmap : List (Nat × Thunk)
  base : Nat
  result : Module

/-- stack_height `inject_stack_counter`, with the intermediate state
exposed: add the tracking global, instrument every body's calls,
synthesise thunks for exported and table-referenced functions of non-zero
cost, and repoint exports and element segments at the thunks. -/
def stackParts (m : Module) (rules : StackRules) : Except String SHParts := do
  let m1 := withStackGlobal m
  let stackHeightGlobalIdx := m1.globalsSpace - 1
  let costs ← computeCosts m1
  let newBodies ← (m1.code.getD []).mapM (fun body => do
    let newCode ← instrumentFunction stackHeightGlobalIdx costs rules.stackLimit body.code
    pure { body with code := newCode })
  let m2 : Module := { m1 with code := m1.code.map (fun _ => newBodies) }
  let rmap ← buildRmap m2 costs
  let base := m2.functionsSpace
  let m3 := appendThunks m2 rmap stackHeightGlobalIdx rules.stackLimit
  pure { costs := costs, instrumented := m2, rmap := rmap, base := base,
         result := { m3 with
           exports := m3.exports.map (List.map (fixupExport rmap base)),
           elements := m3.elements.map (List.map (fixupSegment rmap base)) } }

/-- stack_height `inject_stack_counter`. -/
def injectStackCounter (m : Module) (rules : StackRules) : Except String Module :=
  (stackParts m rules).map (fun p => p.result)

end StackHeight

/-! ## ref_list.rs — the reference list

Handles are modelled by creation ids: `store` maps each id ever pushed to
its current order (`none` = detached), `vals` to its value, and `items`
lists the ids currently in the list, in order.  `EntryRef::order()` is
`RefList.order` applied to the handle's id. -/

structure RefList (α : Type) where
  store : List (Option Nat)
  vals : List α
  items : List Nat
deriving DecidableEq, Repr

namespace RefList

/-- `RefList::new`. -/
def new : RefList α := { store := [], vals := [], items := [] }

/-- `RefList::push`: append an entry; returns the new list and the handle
(creation id) of the pushed entry. -/
def push (l : RefList α) (t : α) : RefList α × Nat :=
  ({ store := l.store ++ [some l.items.length],
     vals := l.vals ++ [t],
     items := l.items ++ [l.store.length] }, l.store.length)

/-- `EntryRef::order` of the handle with the given creation id. -/
def order (l : RefList α) (id : Nat) : Option Nat :=
  (l.store[id]?).join

/-- `RefList::get`: handle at the given current position. -/
def get (l : RefList α) (idx : Nat) : Option Nat :=
  l.items[idx]?

/-- `len` of the list. -/
def len (l : RefList α) : Nat := l.items.length

/-- First loop of `done_delete`: `self.items.remove(*idx)` for each index
in order — each removal happens at the given position of the *already
shrunk* vector, and `Vec::remove` panics when the position is out of
bounds. -/
def removePass : RefList α → List Nat → Except String (RefList α)
  | l, [] => .ok l
  | l, idx :: rest =>
    match l.items[idx]? with
    | none => .error "removal index out of bounds"
    | some id =>
      removePass { l with items := l.items.eraseIdx idx, store := l.store.set id none }
        rest

/-- Second loop of `done_delete`: each surviving entry's order is
decremented by the number of deletion indices strictly below it, taken by
`take_while` over the indices as given. -/
def adjustPass (indices : List Nat) (l : RefList α) : Except String (RefList α) :=
  l.items.foldlM (fun acc id =>
    match acc.store[id]? with
    | some (some o) =>
      let totalLess := (indices.takeWhile (fun x => x < o)).length
      .ok { acc with store := acc.store.set id (some (o - totalLess)) }
    | _ => .error "Items in the list always have order") l

/-- `RefList::done_delete`. -/
def doneDelete (l : RefList α) (indices : List Nat) : Except String (RefList α) := do
  adjustPass indices (← removePass l indices)

/-- `RefList::delete`. -/
def delete (l : RefList α) (indices : List Nat) : Except String (RefList α) :=
  l.doneDelete indices

/-- `RefList::delete_one`. -/
def deleteOne (l : RefList α) (index : Nat) : Except String (RefList α) :=
  l.doneDelete [index]

/-- `RefList::from_slice`. -/
def fromSlice (list : List α) : RefList α :=
  list.foldl (fun acc t => (acc.push t).1) new

end RefList

/-- `DeleteTransaction`. -/
structure DeleteTransaction (α : Type) where
  list : RefList α
  deleted : List Nat

/-- `RefList::begin_delete`. -/
def RefList.beginDelete (l : RefList α) : DeleteTransaction α :=
  { list := l, deleted := [] }

/-- `DeleteTransaction::push`. -/
def DeleteTransaction.push (tx : DeleteTransaction α) (idx : Nat) : DeleteTransaction α :=
  { tx with deleted := tx.deleted ++ [idx] }

/-- `DeleteTransaction::done`. -/
def DeleteTransaction.done (tx : DeleteTransaction α) : Except String (RefList α) :=
  tx.list.doneDelete tx.deleted

/-! ## graph.rs — the wasm binary graph format

`from_elements` performs no deletions, so every handle's order equals its
creation position for the whole ingest/emit round trip; handles are
therefore modelled by their orders directly (`clone_ref`/`get_ref`, which
this snapshot's ref_list.rs does not define, are modelled as indexing that
panics out of bounds). -/

namespace Graph

/-- graph.rs `Instruction`: referential instructions carry a handle
(modelled by its order), all others are kept verbatim. -/
inductive GInstruction where
  | plain (instruction : Instruction)
  | call (funcOrder : Nat)
  | callIndirect (typeOrder : Nat) (reserved : Nat)
  | getGlobal (globalOrder : Nat)
  | setGlobal (globalOrder : Nat)
deriving Repr

/-- graph.rs `FuncOrigin = ImportedOrDeclared<FuncBody>`. -/
inductive GFuncOrigin where
  | imported (module field : String)
  | declared (locals : List (Nat × ValueType)) (code : List GInstruction)
deriving Repr

/-- graph.rs `Func`. -/
structure GFunc where
  typeRef : Nat
  origin : GFuncOrigin
deriving Repr

/-- graph.rs `GlobalOrigin`. -/
inductive GGlobalOrigin where
  | imported (module field : String)
  | declared (init : List GInstruction)
deriving Repr

/-- graph.rs `Global`. -/
structure GGlobal where
  content : ValueType
  isMut : Bool
  origin : GGlobalOrigin
deriving Repr

/-- graph.rs `MemoryOrigin`/`TableOrigin` (`ImportedOrDeclared<()>`). -/
inductive GPlainOrigin where
  | imported (module field : String)
  | declared
deriving DecidableEq, Repr

/-- graph.rs `Memory`. -/
structure GMemory where
  limits : Limits
  origin : GPlainOrigin
deriving DecidableEq, Repr

/-- graph.rs `Table`. -/
structure GTable where
  limits : Limits
  origin : GPlainOrigin
deriving DecidableEq, Repr

/-- graph.rs `ExportLocal` (handles modelled by orders). -/
inductive GExportLocal where
  | func (order : Nat)
  | global (order : Nat)
  | table (order : Nat)
  | memory (order : Nat)
deriving DecidableEq, Repr

/-- graph.rs `Export`.  The Rust field `local` is rendered `loc` (`local`
is a Lean keyword). -/
structure GExport where
  name : String
  loc : GExportLocal
deriving DecidableEq, Repr

/-- graph.rs `SegmentLocation`. -/
inductive GSegmentLocation where
  | passive
  | default (offsetExpr : List GInstruction)
  | withIndex (index : Nat) (offsetExpr : List GInstruction)
deriving Repr

/-- graph.rs `DataSegment`. -/
structure GDataSegment where
  location : GSegmentLocation
  value : List Nat
deriving Repr

/-- graph.rs `ElementSegment`. -/
structure GElementSegment where
  location : GSegmentLocation
  value : List Nat
deriving Repr

/-- graph.rs `Module` (custom sections — the `other` map — are not
modelled; the round-trip counterexample below has none). -/
structure GraphModule where
  types : List FuncType := []
  funcs : List GFunc := []
  memory : List GMemory := []
  tables : List GTable := []
  globals : List GGlobal := []
  start : Option Nat := none
  exports : List GExport := []
  elements : List GElementSegment := []
  data : List GDataSegment := []
deriving Repr

/-- graph.rs `map_instructions`: the four referential instructions become
handle-carrying variants (`clone_ref` panics when the index is out of
bounds), everything else is kept verbatim. -/
def mapInstructions (funcsLen typesLen globalsLen : Nat) :
    List Instruction → Except String (List GInstruction)
  | [] => .ok []
  | instruction :: rest => do
    let tail ← mapInstructions funcsLen typesLen globalsLen rest
    match instruction with
    | .call funcIdx =>
      if funcIdx < funcsLen then .ok (.call funcIdx :: tail)
      else .error "clone_ref out of bounds"
    | .callIndirect typeIdx arg2 =>
      if typeIdx < typesLen then .ok (.callIndirect typeIdx arg2 :: tail)
      else .error "clone_ref out of bounds"
    | .setGlobal globalIdx =>
      if globalIdx < globalsLen then .ok (.setGlobal globalIdx :: tail)
      else .error "clone_ref out of bounds"
    | .getGlobal globalIdx =>
      if globalIdx < globalsLen then .ok (.getGlobal globalIdx :: tail)
      else .error "clone_ref out of bounds"
    | other => .ok (.plain other :: tail)

/-- graph.rs `generate_instructions` (no handle here can be detached,
since the ingest/emit pipeline performs no deletion). -/
def generateInstructions : List GInstruction → List Instruction
  | [] => []
  | .call funcOrder :: rest => .call funcOrder :: generateInstructions rest
  | .callIndirect typeOrder arg2 :: rest => .callIndirect typeOrder arg2 :: generateInstructions rest
  | .setGlobal globalOrder :: rest => .setGlobal globalOrder :: generateInstructions rest
  | .getGlobal globalOrder :: rest => .getGlobal globalOrder :: generateInstructions rest
  | .plain plainInstr :: rest => plainInstr :: generateInstructions rest

/-- Ingest of one import entry. -/
def ingestImport (g : GraphModule) (e : ImportEntry) : Except String GraphModule :=
  match e.desc with
  | .func f =>
    if f < g.types.length then
      .ok { g with funcs := g.funcs ++ [{ typeRef := f, origin := .imported e.module e.field }] }
    else .error "validated; qed"
  | .memory limits =>
    .ok { g with memory := g.memory ++ [{ limits := limits, origin := .imported e.module e.field }] }
  | .global content isMut =>
    .ok { g with globals := g.globals ++ [⟨content, isMut, .imported e.module e.field⟩] }
  | .table limits =>
    .ok { g with tables := g.tables ++ [{ limits := limits, origin := .imported e.module e.field }] }

/-- The code-section loop of `from_elements`.  In the source the loop
declares `let mut idx = 0;` and never increments it, so every function
body is written through the handle `funcs.get_ref(imported_functions +
idx)` with `idx` still 0 — i.e. always into the first declared function.
The loop is embedded exactly as written. -/
def ingestBodies (importedFunctions : Nat) (typesLen globalsLen : Nat)
    (funcs : List GFunc) (bodies : List FuncBody) : Except String (List GFunc) :=
  bodies.foldlM (fun fs body => do
    let code ← mapInstructions fs.length typesLen globalsLen body.code
    match fs[importedFunctions + 0]? with
    | none => .error "get_ref out of bounds"
    | some f =>
      match f.origin with
      | .declared _ _ =>
        .ok (fs.set (importedFunctions + 0) { f with origin := .declared body.locals code })
      | _ => .error "All declared functions added after imported; qed") funcs

/-- graph.rs `Module::from_elements` (sections visited in canonical
order, which is the order of the structural record). -/
def fromElements (m : Module) : Except String GraphModule := do
  let g0 : GraphModule := { types := m.types.getD [] }
  let importedFunctions := m.importedFunctions
  let g1 ← (m.imports.getD []).foldlM ingestImport g0
  let g2 ← (m.funcs.getD []).foldlM (fun g f => do
    if f < g.types.length then
      .ok { g with funcs := g.funcs ++ [{ typeRef := f, origin := .declared [] [] }] }
    else .error "validated; qed") g1
  let g3 : GraphModule := { g2 with
    tables := g2.tables ++ (m.tables.getD []).map (fun t => { limits := t, origin := .declared }),
    memory := g2.memory ++ (m.memories.getD []).map (fun t => { limits := t, origin := .declared }) }
  let g4 ← (m.globals.getD []).foldlM (fun g ge => do
    let initCode ← mapInstructions g.funcs.length g.types.length g.globals.length ge.init
    .ok { g with globals := g.globals ++ [⟨ge.content, ge.isMut, .declared initCode⟩] }) g3
  let g5 ← (m.exports.getD []).foldlM (fun g e => do
    let loc ← match e.internal with
      | .func funcIdx =>
        if funcIdx < g.funcs.length then pure (GExportLocal.func funcIdx)
        else .error "clone_ref out of bounds"
      | .global globalIdx =>
        if globalIdx < g.globals.length then pure (GExportLocal.global globalIdx)
        else .error "clone_ref out of bounds"
      | .memory memIdx =>
        if memIdx < g.memory.length then pure (GExportLocal.memory memIdx)
        else .error "clone_ref out of bounds"
      | .table tableIdx =>
        if tableIdx < g.tables.length then pure (GExportLocal.table tableIdx)
        else .error "clone_ref out of bounds"
    .ok { g with exports := g.exports ++ [{ name := e.field, loc := loc }] }) g4
  let g6 ← match m.start with
    | none => pure g5
    | some startFunc =>
      if startFunc < g5.funcs.length then pure { g5 with start := some startFunc }
      else .error "clone_ref out of bounds"
  let g7 ← (m.elements.getD []).foldlM (fun g seg => do
    let offsetCode ← mapInstructions g.funcs.length g.types.length g.globals.length seg.offset
    .ok { g with elements := g.elements ++
      [{ location := .default offsetCode, value := seg.members }] }) g6
  let newFuncs ← ingestBodies importedFunctions g7.types.length g7.globals.length
    g7.funcs (m.code.getD [])
  let g8 : GraphModule := { g7 with funcs := newFuncs }
  let g9 ← (m.data.getD []).foldlM (fun g seg => do
    let offsetCode ← mapInstructions g.funcs.length g.types.length g.globals.length seg.offset
    .ok { g with data := g.data ++
      [{ location := .default offsetCode, value := seg.value }] }) g8
  .ok g9

/-- graph.rs `Module::generate`: emission; each section is emitted only
when its source list is non-empty, and every referential index is the
handle's current order. -/
def generate (g : GraphModule) : Except String Module := do
  let importEntries :=
    (g.funcs.filterMap (fun f =>
      match f.origin with
      | .imported importModule importField =>
        some { module := importModule, field := importField, desc := ExternalDesc.func f.typeRef }
      | _ => none))
    ++ (g.globals.filterMap (fun gl =>
      match gl.origin with
      | .imported importModule importField =>
        some { module := importModule, field := importField, desc := ExternalDesc.global gl.content gl.isMut }
      | _ => none))
    ++ (g.memory.filterMap (fun mem =>
      match mem.origin with
      | .imported importModule importField =>
        some { module := importModule, field := importField, desc := ExternalDesc.memory mem.limits }
      | _ => none))
    ++ (g.tables.filterMap (fun t =>
      match t.origin with
      | .imported importModule importField =>
        some { module := importModule, field := importField, desc := ExternalDesc.table t.limits }
      | _ => none))
  let elementSegments ← g.elements.mapM (fun e =>
    match e.location with
    | .default offsetExpr =>
      .ok { index := 0, offset := generateInstructions offsetExpr, members := e.value }
    | _ => .error "Other segment location types are never added")
  let dataSegments ← g.data.mapM (fun d =>
    match d.location with
    | .default offsetExpr =>
      .ok ({ index := 0, offset := generateInstructions offsetExpr, value := d.value } : DataSegment)
    | _ => .error "Other segment location types are never added")
  .ok { types := if 0 < g.types.length then some g.types else none,
        imports := if 0 < importEntries.length then some importEntries else none,
        funcs := if 0 < g.funcs.length then
            some (g.funcs.filterMap (fun f =>
              match f.origin with
              | .declared _ _ => some f.typeRef
              | _ => none))
          else none,
        tables := if 0 < g.tables.length then
            some (g.tables.filterMap (fun t =>
              match t.origin with
              | .declared => some t.limits
              | _ => none))
          else none,
        memories := if 0 < g.memory.length then
            some (g.memory.filterMap (fun mem =>
              match mem.origin with
              | .declared => some mem.limits
              | _ => none))
          else none,
        globals := if 0 < g.globals.length then
            some (g.globals.filterMap (fun gl =>
              match gl.origin with
              | .declared initCode => some ⟨gl.content, gl.isMut, generateInstructions initCode⟩
              | _ => none))
          else none,
        exports := if 0 < g.exports.length then
            some (g.exports.map (fun e =>
              { field := e.name,
                internal :=
                  match e.loc with
                  | .func order => .func order
                  | .global order => .global order
                  | .table order => .table order
                  | .memory order => .memory order }))
          else none,
        start := g.start,
        elements := if 0 < g.elements.length then some elementSegments else none,
        code := if 0 < g.funcs.length then
            some (g.funcs.filterMap (fun f =>
              match f.origin with
              | .declared locals code =>
                some { locals := locals, code := generateInstructions code }
              | _ => none))
          else none,
        data := if 0 < g.data.length then some dataSegments else none }

end Graph

/-! ## optimizer.rs and symbols.rs — the symbol-reachability optimizer

This pass is written against the older parity_wasm opcode form in which
structured control instructions carry their body as a nested list
(optimizer.rs and symbols.rs match `Block(_, block)` with two fields).
Instructions other than the four referential ones and the three nested
ones are inert for this pass and are modelled by an opaque tag. -/

/-- Nested opcode sequence used by optimizer.rs, symbols.rs.  A
`Vec<Opcode>` whose `Block`/`Loop`/`If` opcodes carry a nested `Opcodes`
body is fused into one inductive: each constructor is one opcode followed
by the rest of the sequence (`nil` ends it), and the three structured
opcodes additionally carry their nested body.  This is isomorphic to the
nested-list form and keeps every traversal structurally recursive. -/
inductive NSeq where
  | nil
  | block (t : BlockType) (body : NSeq) (rest : NSeq)
  | loopOp (t : BlockType) (body : NSeq) (rest : NSeq)
  | ifOp (t : BlockType) (body : NSeq) (rest : NSeq)
  | call (idx : Nat) (rest : NSeq)
  | callIndirect (typeIdx : Nat) (reserved : Nat) (rest : NSeq)
  | getGlobal (idx : Nat) (rest : NSeq)
  | setGlobal (idx : Nat) (rest : NSeq)
  | plain (tag : Nat) (rest : NSeq)
deriving DecidableEq, Repr

/-- Function body in nested opcode form. -/
structure OFuncBody where
  locals : List (Nat × ValueType)
  code : NSeq
deriving DecidableEq, Repr

/-- Global entry in nested opcode form. -/
structure OGlobalEntry where
  content : ValueType
  isMut : Bool
  init : NSeq
deriving DecidableEq, Repr

/-- Element segment in nested opcode form. -/
structure OElementSegment where
  index : Nat
  offset : NSeq
  members : List Nat
deriving DecidableEq, Repr

/-- Data segment in nested opcode form. -/
structure ODataSegment where
  index : Nat
  offset : NSeq
  value : List Nat
deriving DecidableEq, Repr

/-- Structural module in nested opcode form (the sections the optimizer
touches); `none` models an absent section. -/
structure OModule where
  types : Option (List FuncType) := none
  imports : Option (List ImportEntry) := none
  funcs : Option (List Nat) := none
  globals : Option (List OGlobalEntry) := none
  exports : Option (List ExportEntry) := none
  elements : Option (List OElementSegment) := none
  code : Option (List OFuncBody) := none
  data : Option (List ODataSegment) := none
deriving Repr

namespace Optimizer

/-- symbols.rs `Symbol` (`import`/`export` are Lean keywords, hence the
`Sym` suffixes). -/
inductive Symbol where
  | typeSym (i : Nat)
  | importSym (i : Nat)
  | globalSym (i : Nat)
  | funcSym (i : Nat)
  | exportSym (i : Nat)
deriving DecidableEq, Repr

/-- optimizer.rs / pack.rs shared error type; `panicked` models an
`expect`/index panic with its message. -/
inductive OptError where
  | noExportSection
  | panicked (msg : String)
deriving DecidableEq, Repr

/-- Loop body of symbols.rs `resolve_function`. -/
def resolveFunctionLoop (index : Nat) : List ImportEntry → Nat → Nat → Symbol
  | [], _, functions => .funcSym (index - functions)
  | e :: rest, itemIndex, functions =>
    match e.desc with
    | .func _ =>
      if functions = index then .importSym itemIndex
      else resolveFunctionLoop index rest (itemIndex + 1) (functions + 1)
    | _ => resolveFunctionLoop index rest (itemIndex + 1) functions

/-- symbols.rs `resolve_function` (panics when the import section is
absent). -/
def resolveFunction (m : OModule) (index : Nat) : Except OptError Symbol :=
  match m.imports with
  | none => .error (.panicked "Functions section to exist")
  | some imports => .ok (resolveFunctionLoop index imports 0 0)

/-- Loop body of symbols.rs `resolve_global`. -/
def resolveGlobalLoop (index : Nat) : List ImportEntry → Nat → Nat → Symbol
  | [], _, globals => .globalSym (index - globals)
  | e :: rest, itemIndex, globals =>
    match e.desc with
    | .global _ _ =>
      if globals = index then .importSym itemIndex
      else resolveGlobalLoop index rest (itemIndex + 1) (globals + 1)
    | _ => resolveGlobalLoop index rest (itemIndex + 1) globals

/-- symbols.rs `resolve_global`. -/
def resolveGlobal (m : OModule) (index : Nat) : Except OptError Symbol :=
  match m.imports with
  | none => .error (.panicked "Functions section to exist")
  | some imports => .ok (resolveGlobalLoop index imports 0 0)

/-- symbols.rs `push_code_symbols`: referential opcodes resolve to
symbols, nested blocks are traversed recursively. -/
def pushCodeSymbols (m : OModule) : NSeq → Except OptError (List Symbol)
  | .nil => .ok []
  | .call idx rest => do
    let s ← resolveFunction m idx
    let tail ← pushCodeSymbols m rest
    .ok (s :: tail)
  | .getGlobal idx rest => do
    let s ← resolveGlobal m idx
    let tail ← pushCodeSymbols m rest
    .ok (s :: tail)
  | .setGlobal idx rest => do
    let s ← resolveGlobal m idx
    let tail ← pushCodeSymbols m rest
    .ok (s :: tail)
  | .ifOp _ body rest => do
    let inner ← pushCodeSymbols m body
    let tail ← pushCodeSymbols m rest
    .ok (inner ++ tail)
  | .loopOp _ body rest => do
    let inner ← pushCodeSymbols m body
    let tail ← pushCodeSymbols m rest
    .ok (inner ++ tail)
  | .block _ body rest => do
    let inner ← pushCodeSymbols m body
    let tail ← pushCodeSymbols m rest
    .ok (inner ++ tail)
  | .callIndirect _ _ rest => pushCodeSymbols m rest
  | .plain _ rest => pushCodeSymbols m rest

/-- `HashSet::insert` on the membership-only `stay` set. -/
def insertSym (set : List Symbol) (s : Symbol) : List Symbol :=
  if s ∈ set then set else set ++ [s]

/-- Expansion step of symbols.rs `expand_symbols` for one symbol: the
symbols it reaches, in push order. -/
def expandOne (m : OModule) : Symbol → Except OptError (List Symbol)
  | .exportSym idx =>
    match m.exports with
    | none => .error (.panicked "Export section to exist")
    | some exports =>
      match exports[idx]? with
      | none => .error (.panicked "export entry out of bounds")
      | some entry =>
        match entry.internal with
        | .func funcIdx => do
          let s ← resolveFunction m funcIdx
          .ok [s]
        | .global globalIdx => do
          let s ← resolveGlobal m globalIdx
          .ok [s]
        | _ => .ok []
  | .importSym idx =>
    match m.imports with
    | none => .error (.panicked "Import section to exist")
    | some imports =>
      match imports[idx]? with
      | none => .error (.panicked "import entry out of bounds")
      | some entry =>
        match entry.desc with
        | .func typeIdx => .ok [.typeSym typeIdx]
        | _ => .ok []
  | .funcSym idx =>
    match m.code with
    | none => .error (.panicked "Code section to exist")
    | some bodies =>
      match bodies[idx]? with
      | none => .error (.panicked "code body out of bounds")
      | some body => do
        let codeSymbols ← pushCodeSymbols m body.code
        match m.funcs with
        | none => .error (.panicked "Functions section to exist")
        | some funcs =>
          match funcs[idx]? with
          | none => .error (.panicked "function entry out of bounds")
          | some typeRef => .ok (codeSymbols ++ [.typeSym typeRef])
  | .globalSym idx =>
    match m.globals with
    | none => .error (.panicked "Global section to exist")
    | some globals =>
      match globals[idx]? with
      | none => .error (.panicked "global entry out of bounds")
      | some entry => pushCodeSymbols m entry.init
  | .typeSym _ => .ok []

/-- Worklist loop of symbols.rs `expand_symbols`; the fringe is kept
top-first (`Vec::pop` takes the last push).  The fuel only rules out
non-termination of the translation; `expandFuel` below over-approximates
the iteration count (pops = initial fringe + pushes; pushes only happen
the first time a symbol is processed, so they are bounded by the number of
resolvable symbols times the largest expansion), so the fuel is never
exhausted on the inputs the theorems evaluate. -/
def expandLoop (m : OModule) :
    Nat → List Symbol → List Symbol → List Symbol → Except OptError (List Symbol)
  | 0, _, _, set => .ok set
  | _ + 1, [], _, set => .ok set
  | fuel + 1, next :: fringe, stop, set =>
    if next ∈ stop then expandLoop m fuel fringe stop set
    else do
      let newSymbols ← expandOne m next
      let fringe' := (newSymbols.filter (fun s => s ∉ stop)).reverse ++ fringe
      let set' := newSymbols.foldl insertSym set
      expandLoop m fuel fringe' (stop ++ [next]) set'

/-- Size of a nested opcode sequence. -/
def nseqSize : NSeq → Nat
  | .nil => 0
  | .block _ body rest => 1 + nseqSize body + nseqSize rest
  | .loopOp _ body rest => 1 + nseqSize body + nseqSize rest
  | .ifOp _ body rest => 1 + nseqSize body + nseqSize rest
  | .call _ rest => 1 + nseqSize rest
  | .callIndirect _ _ rest => 1 + nseqSize rest
  | .getGlobal _ rest => 1 + nseqSize rest
  | .setGlobal _ rest => 1 + nseqSize rest
  | .plain _ rest => 1 + nseqSize rest

/-- Fuel bound for `expandLoop` (see its doc comment). -/
def expandFuel (m : OModule) (fringe : List Symbol) : Nat :=
  let codeSize := ((m.code.getD []).map (fun b => nseqSize b.code)).sum
  let initSize := ((m.globals.getD []).map (fun g => nseqSize g.init)).sum
  let resolvable := (m.code.getD []).length + (m.globals.getD []).length
    + (m.imports.getD []).length + (m.exports.getD []).length
  fringe.length + (resolvable + 1) * (codeSize + initSize + 2) + 1

/-- symbols.rs `expand_symbols`. -/
def expandSymbols (m : OModule) (set : List Symbol) : Except OptError (List Symbol) :=
  expandLoop m (expandFuel m set) set [] set

/-- `take_while(|i| i < x).count()` over an eliminated-indices list (the
decrement the optimizer applies to each referential index). -/
def takeWhileCountLt (l : List Nat) (x : Nat) : Nat :=
  (l.takeWhile (fun i => decide (i < x))).length

/-- optimizer.rs `update_call_index` (recursing into nested blocks). -/
def updateCallIndexN (eliminatedIndices : List Nat) : NSeq → NSeq
  | .nil => .nil
  | .block t body rest =>
    .block t (updateCallIndexN eliminatedIndices body) (updateCallIndexN eliminatedIndices rest)
  | .ifOp t body rest =>
    .ifOp t (updateCallIndexN eliminatedIndices body) (updateCallIndexN eliminatedIndices rest)
  | .loopOp t body rest =>
    .loopOp t (updateCallIndexN eliminatedIndices body) (updateCallIndexN eliminatedIndices rest)
  | .call callIndex rest =>
    .call (callIndex - takeWhileCountLt eliminatedIndices callIndex)
      (updateCallIndexN eliminatedIndices rest)
  | .callIndirect typeIdx reserved rest =>
    .callIndirect typeIdx reserved (updateCallIndexN eliminatedIndices rest)
  | .getGlobal index rest => .getGlobal index (updateCallIndexN eliminatedIndices rest)
  | .setGlobal index rest => .setGlobal index (updateCallIndexN eliminatedIndices rest)
  | .plain tag rest => .plain tag (updateCallIndexN eliminatedIndices rest)

/-- optimizer.rs `update_global_index`. -/
def updateGlobalIndexN (eliminatedIndices : List Nat) : NSeq → NSeq
  | .nil => .nil
  | .block t body rest =>
    .block t (updateGlobalIndexN eliminatedIndices body) (updateGlobalIndexN eliminatedIndices rest)
  | .ifOp t body rest =>
    .ifOp t (updateGlobalIndexN eliminatedIndices body) (updateGlobalIndexN eliminatedIndices rest)
  | .loopOp t body rest =>
    .loopOp t (updateGlobalIndexN eliminatedIndices body) (updateGlobalIndexN eliminatedIndices rest)
  | .getGlobal index rest =>
    .getGlobal (index - takeWhileCountLt eliminatedIndices index)
      (updateGlobalIndexN eliminatedIndices rest)
  | .setGlobal index rest =>
    .setGlobal (index - takeWhileCountLt eliminatedIndices index)
      (updateGlobalIndexN eliminatedIndices rest)
  | .call callIndex rest => .call callIndex (updateGlobalIndexN eliminatedIndices rest)
  | .callIndirect typeIdx reserved rest =>
    .callIndirect typeIdx reserved (updateGlobalIndexN eliminatedIndices rest)
  | .plain tag rest => .plain tag (updateGlobalIndexN eliminatedIndices rest)

/-- Keep/eliminate filter with old-index tracking (the shape of the
type/global/export elimination loops: kept entries stay in order,
eliminated old indices are collected in ascending order). -/
def staySection (stayP : Nat → Bool) : List α → Nat → (List α × List Nat)
  | [], _ => ([], [])
  | x :: rest, oldIdx =>
    let (keep, elim) := staySection stayP rest (oldIdx + 1)
    if stayP oldIdx then (x :: keep, elim) else (keep, oldIdx :: elim)

/-- The import elimination loop: returns kept entries, eliminated
function-import positions (in the combined function space), eliminated
global-import positions, and the final `top_funcs`/`top_globals`
counters. -/
def importsLoop (stayP : Nat → Bool) :
    List ImportEntry → Nat → Nat → Nat →
    (List ImportEntry × List Nat × List Nat × Nat × Nat)
  | [], _, topF, topG => ([], [], [], topF, topG)
  | e :: rest, oldIdx, topF, topG =>
    match e.desc with
    | .func _ =>
      let (kept, ef, eg, tf, tg) := importsLoop stayP rest (oldIdx + 1) (topF + 1) topG
      if stayP oldIdx then (e :: kept, ef, eg, tf, tg)
      else (kept, topF :: ef, eg, tf, tg)
    | .global _ _ =>
      let (kept, ef, eg, tf, tg) := importsLoop stayP rest (oldIdx + 1) topF (topG + 1)
      if stayP oldIdx then (e :: kept, ef, eg, tf, tg)
      else (kept, ef, topG :: eg, tf, tg)
    | _ =>
      let (kept, ef, eg, tf, tg) := importsLoop stayP rest (oldIdx + 1) topF topG
      (e :: kept, ef, eg, tf, tg)

/-- The function elimination loop: an eliminated function entry also
removes the code body at the same running position (`bodies.remove(index)`
— panics when the code section is absent or too short). -/
def funcsLoop (stayP : Nat → Bool) (topFuncs : Nat) :
    List Nat → Nat → Nat → Option (List OFuncBody) →
    Except OptError (List Nat × Option (List OFuncBody) × List Nat)
  | [], _, _, bodies => .ok ([], bodies, [])
  | f :: rest, oldIdx, index, bodies =>
    if stayP oldIdx then do
      let (kept, bodies', elim) ← funcsLoop stayP topFuncs rest (oldIdx + 1) (index + 1) bodies
      .ok (f :: kept, bodies', elim)
    else
      match bodies with
      | none => .error (.panicked "Code section to exist")
      | some bs =>
        if index < bs.length then do
          let (kept, bodies', elim) ←
            funcsLoop stayP topFuncs rest (oldIdx + 1) index (some (bs.eraseIdx index))
          .ok (kept, bodies', (topFuncs + oldIdx) :: elim)
        else .error (.panicked "code body removal out of bounds")

/-- The second-pass rewiring of optimizer.rs (applied when anything was
eliminated): every remaining referential index is decremented by the
`take_while` count of the sorted eliminated lists. -/
def rewire (m : OModule) (elimT elimF elimG : List Nat) : OModule :=
  { m with
    funcs := m.funcs.map (List.map (fun typeRef => typeRef - takeWhileCountLt elimT typeRef)),
    imports := m.imports.map (List.map (fun e =>
      match e.desc with
      | .func typeRef => { e with desc := .func (typeRef - takeWhileCountLt elimT typeRef) }
      | _ => e)),
    code := m.code.map (List.map (fun b =>
      { b with code := updateGlobalIndexN elimG (updateCallIndexN elimF b.code) })),
    exports := m.exports.map (List.map (fun e =>
      match e.internal with
      | .func funcIndex => { e with internal := .func (funcIndex - takeWhileCountLt elimF funcIndex) }
      | .global globalIndex => { e with internal := .global (globalIndex - takeWhileCountLt elimG globalIndex) }
      | _ => e)),
    globals := m.globals.map (List.map (fun g =>
      { g with init := updateGlobalIndexN elimG g.init })),
    data := m.data.map (List.map (fun s =>
      { s with offset := updateGlobalIndexN elimG s.offset })),
    elements := m.elements.map (List.map (fun s =>
      { s with offset := updateGlobalIndexN elimG s.offset,
               members := s.members.map (fun funcIndex =>
                 funcIndex - takeWhileCountLt elimF funcIndex) })) }

/-- Intermediate state of `optimize` exposing the eliminated index lists
(import-space parts separate from defined-space parts). -/
structure OptParts where
  result : OModule
  kept : OModule
  elimTypes : List Nat
  elimFuncsImports : List Nat
  elimFuncsDefined : List Nat
  elimGlobalsImports : List Nat
  elimGlobalsDefined : List Nat
  topFuncs : Nat
  topGlobals : Nat
deriving Repr

/-- The seeding and closure stage of `optimize`: the kept exports, the
data/element initializer symbols and the element-segment members, expanded
to the reachability closure. -/
def seedAndExpand (m : OModule) (usedExports : List String) (exports : List ExportEntry) :
    Except OptError (List Symbol) := do
  let stay0 := (List.range exports.length).filterMap (fun index =>
    match exports[index]? with
    | some entry =>
      if usedExports.contains entry.field then some (Symbol.exportSym index) else none
    | none => none)
  let dataSyms ← (m.data.getD []).foldlM (fun acc seg => do
    let syms ← pushCodeSymbols m seg.offset
    pure (acc ++ syms)) ([] : List Symbol)
  let elemSyms ← (m.elements.getD []).foldlM (fun acc seg => do
    let offSyms ← pushCodeSymbols m seg.offset
    let memberSyms ← seg.members.mapM (fun funcIndex => resolveFunction m funcIndex)
    pure (acc ++ memberSyms ++ offSyms)) ([] : List Symbol)
  expandSymbols m ((elemSyms ++ dataSyms).foldl insertSym stay0)

/-- Final assembly of the elimination stage, given the section
elimination results.  `ts`/`gs`/`es` are the (kept, eliminated-old-index)
pairs of the type/global/export loops, `il` is the import-loop result
(kept, elimF, elimG, topFuncs, topGlobals) and `fl` the function-loop
result (kept, bodies, elimF-defined). -/
def assembleParts (m : OModule) (ts : List FuncType × List Nat)
    (il : List ImportEntry × List Nat × List Nat × Nat × Nat)
    (gs : List OGlobalEntry × List Nat)
    (fl : List Nat × Option (List OFuncBody) × List Nat)
    (es : List ExportEntry × List Nat) : OptParts :=
  let elimGlobalsDefined := gs.2.map (fun oldIdx => il.2.2.2.2 + oldIdx)
  let m1 : OModule := { m with
    types := some ts.1,
    imports := some il.1,
    globals := some gs.1,
    funcs := some fl.1,
    code := fl.2.1,
    exports := some es.1 }
  let elimGlobals := il.2.2.1 ++ elimGlobalsDefined
  let elimFuncs := il.2.1 ++ fl.2.2
  if elimGlobals.length > 0 ∨ elimFuncs.length > 0 ∨ ts.2.length > 0 then
    { result := rewire m1 (stableSort (fun a b => decide (a ≤ b)) ts.2)
        (stableSort (fun a b => decide (a ≤ b)) elimFuncs)
        (stableSort (fun a b => decide (a ≤ b)) elimGlobals),
      kept := m1,
      elimTypes := ts.2,
      elimFuncsImports := il.2.1,
      elimFuncsDefined := fl.2.2,
      elimGlobalsImports := il.2.2.1,
      elimGlobalsDefined := elimGlobalsDefined,
      topFuncs := il.2.2.2.1,
      topGlobals := il.2.2.2.2 }
  else
    { result := m1,
      kept := m1,
      elimTypes := ts.2,
      elimFuncsImports := il.2.1,
      elimFuncsDefined := fl.2.2,
      elimGlobalsImports := il.2.2.1,
      elimGlobalsDefined := elimGlobalsDefined,
      topFuncs := il.2.2.2.1,
      topGlobals := il.2.2.2.2 }

/-- The elimination and rewiring stage of `optimize`: eliminate entries
outside `stay` per section (collecting eliminated combined-space
indices), then — when anything was eliminated — rewire every remaining
referential index. -/
def elimAndRewire (m : OModule) (exports : List ExportEntry) (stay : List Symbol) :
    Except OptError OptParts :=
  let stayP := fun s => decide (s ∈ stay)
  match m.types with
  | none => .error (OptError.panicked "Functons section to exist")
  | some types =>
  match m.imports with
  | none => .error (OptError.panicked "Import section to exist")
  | some imports =>
  -- the source's import loop reads `entries()[0]` before any bounds
  -- check, so an empty import section panics
  if imports.isEmpty then .error (OptError.panicked "import entry index out of bounds")
  else
  match m.globals with
  | none => .error (OptError.panicked "Global section to exist")
  | some globals =>
  match m.funcs with
  | none => .error (OptError.panicked "Functons section to exist")
  | some funcs =>
  let ts := staySection (fun i => stayP (.typeSym i)) types 0
  let il := importsLoop (fun i => stayP (.importSym i)) imports 0 0 0
  let gs := staySection (fun i => stayP (.globalSym i)) globals 0
  (funcsLoop (fun i => stayP (.funcSym i)) il.2.2.2.1 funcs 0 0 m.code) >>= fun fl =>
  .ok (assembleParts m ts il gs fl (staySection (fun i => stayP (.exportSym i)) exports 0))

/-- optimizer.rs `optimize`, with the intermediate state exposed. -/
def optimizeParts (m : OModule) (usedExports : List String) : Except OptError OptParts :=
  match m.exports with
  | none => .error OptError.noExportSection
  | some exports => seedAndExpand m usedExports exports >>= elimAndRewire m exports

/-- optimizer.rs `optimize`. -/
def optimize (m : OModule) (usedExports : List String) : Except OptError OModule :=
  (optimizeParts m usedExports).map (fun p => p.result)

/-- `x` can only fail with a panic (never with `NoExportSection`). -/
def PanickedOnly (x : Except OptError α) : Prop :=
  ∀ e, x = .error e → ∃ msg, e = OptError.panicked msg

end Optimizer

/-! ## pack.rs — the constructor packer -/

namespace Pack

/-- `CREATE_SYMBOL` (pwasm preset of lib.rs `TargetSymbols`). -/
def CREATE_SYMBOL : String := "deploy"
/-- `CALL_SYMBOL`. -/
def CALL_SYMBOL : String := "call"
/-- `RET_SYMBOL`. -/
def RET_SYMBOL : String := "ret"

/-- pack.rs `Error`, plus `panicked` for slice-index panics. -/
inductive PackError where
  | malformedModule
  | noTypeSection
  | noExportSection
  | noCodeSection
  | invalidCreateSignature
  | noCreateSymbol
  | invalidCreateMember
  | noImportSection
  | panicked (msg : String)
deriving DecidableEq, Repr

/-- `usize as i32` truncating cast. -/
def usizeToI32 (n : Nat) : Int := u32ToI32 (n % 4294967296)

/-- The `ret` import scan of `pack_instance`: position of the
function import named `ret` among function imports. -/
def findRet : List ImportEntry → Nat → Option Nat
  | [], _ => none
  | e :: rest, id =>
    match e.desc with
    | .func _ => if e.field = RET_SYMBOL then some id else findRet rest (id + 1)
    | _ => findRet rest id

/-- The validation prefix of `pack_instance`: locating the `deploy`
export and checking its signature; returns the function's index within
the function section. -/
def packValidate (ctorModule : Module) (ctorImportFunctions : Nat) : Except PackError Nat := do
  let exports ← match ctorModule.exports with
    | none => .error PackError.noExportSection
    | some e => pure e
  let foundEntry ← match exports.find? (fun entry => entry.field = CREATE_SYMBOL) with
    | none => .error PackError.noCreateSymbol
    | some e => pure e
  let functionIndex ← match foundEntry.internal with
    | .func index => pure index
    | _ => .error PackError.invalidCreateMember
  -- `function_index - ctor_import_functions` in release-mode usize
  -- arithmetic wraps on underflow, making the subsequent `get` fail
  if functionIndex < ctorImportFunctions then .error PackError.malformedModule else do
  let functionInternalIndex := functionIndex - ctorImportFunctions
  let funcSection ← match ctorModule.funcs with
    | none => .error PackError.noCodeSection
    | some f => pure f
  let typeId ← match funcSection[functionInternalIndex]? with
    | none => .error PackError.malformedModule
    | some t => pure t
  let typeSection ← match ctorModule.types with
    | none => .error PackError.noTypeSection
    | some t => pure t
  let funcTy ← match typeSection[typeId]? with
    | none => .error PackError.malformedModule
    | some t => pure t
  if ¬ funcTy.params.isEmpty then .error PackError.invalidCreateSignature else do
  if funcTy.ret.isSome then .error PackError.invalidCreateSignature else do
  .ok functionInternalIndex

/-- The `ret`-import step of `pack_instance`: returns the (possibly
extended and shifted) module, the `ret` function index, and the deploy
function index (bumped when the import was inserted before it). -/
def packRetStep (ctorModule : Module) (importSec : List ImportEntry)
    (functionInternalIndex : Nat) : Module × Nat × Nat :=
  let retSig : FuncType := { params := [.i32, .i32], ret := none }
  let retImport : ImportEntry :=
    { module := "env", field := "ret", desc := .func (ctorModule.types.getD []).length }
  match findRet importSec 0 with
  | some id => (ctorModule, id, functionInternalIndex)
  | none =>
    let withImport : Module := { ctorModule with
      types := some ((ctorModule.types.getD []) ++ [retSig]),
      imports := some (importSec ++ [retImport]) }
    let retFunc := withImport.importedFunctions - 1
    let shifted : Module := { withImport with
      code := withImport.code.map (List.map (fun b =>
        { b with code := Gas.updateCallIndex b.code retFunc })),
      exports := withImport.exports.map (List.map (Gas.shiftExport retFunc)),
      elements := withImport.elements.map (List.map (Gas.shiftSegment retFunc)) }
    (shifted, retFunc, functionInternalIndex + 1)

/-- The data-appending and function-appending tail of `pack_instance`:
synthesise an empty data section if absent, place the raw bytes after the
last segment, append the `call deploy; ret(ptr, len)` function and rename
the deploy export. -/
def packAppend (rawModule : List Nat) (ctor1 : Module)
    (createFuncId ctorImportFunctions retFunctionId : Nat) : Except PackError Module := do
  let lastFunctionIndex := ctor1.functionsSpace
  let ctor2 : Module :=
    match ctor1.data with
    | none => { ctor1 with data := some [] }
    | some _ => ctor1
  let indexOffset : Except PackError (Nat × Int) :=
    match (ctor2.data.getD []).getLast? with
    | none => .ok (0, 0)
    | some entry =>
      match entry.offset with
      | [] => .error (PackError.panicked "offset expression index out of bounds")
      | .i32Const offst :: _ =>
        let len : Int := usizeToI32 entry.value.length
        .ok (entry.index, offst + (len + 4) - len % 4)
      | _ :: _ => .ok (0, 0)
  let io ← indexOffset
  let codeData : DataSegment :=
    { index := io.1, offset := [.i32Const io.2, .endOp], value := rawModule }
  let ctor3 : Module := { ctor2 with
    data := ctor2.data.map (fun segs => segs ++ [codeData]) }
  let newBody : FuncBody :=
    { locals := [],
      code := [ .call (createFuncId + ctorImportFunctions),
                .i32Const io.2,
                .i32Const (usizeToI32 rawModule.length),
                .call retFunctionId,
                .endOp ] }
  let emptySig : FuncType := { params := [], ret := none }
  let newModule : Module := { ctor3 with
    types := some ((ctor3.types.getD []) ++ [emptySig]),
    funcs := some ((ctor3.funcs.getD []) ++ [(ctor3.types.getD []).length]),
    code := some ((ctor3.code.getD []) ++ [newBody]) }
  .ok { newModule with
    exports := newModule.exports.map (List.map (fun entry =>
      if entry.field = CREATE_SYMBOL then
        { entry with field := CALL_SYMBOL, internal := .func lastFunctionIndex }
      else entry)) }

/-- pack.rs `pack_instance`. -/
def packInstance (rawModule : List Nat) (ctorModule : Module) : Except PackError Module := do
  let ctorImportFunctions := (ctorModule.imports.getD []).countP (fun e => e.isFunc)
  let functionInternalIndex ← packValidate ctorModule ctorImportFunctions
  match ctorModule.imports with
  | none => .error PackError.noImportSection
  | some importSec =>
    let step := packRetStep ctorModule importSec functionInternalIndex
    packAppend rawModule step.1 step.2.2 ctorImportFunctions step.2.1

end Pack

/-! ## ext.rs — the externalizer -/

namespace Ext

/-- ext.rs `Insertion`: (export position, combined function index, type
reference, export name). -/
structure Insertion where
  exportIdx : Nat
  funcIdx : Nat
  typeRef : Nat
  name : String
deriving DecidableEq, Repr

/-- ext.rs `update_call_index`: calls to a replaced function are rewired
to its new import slot; other calls with index *strictly greater* than
the original import count are shifted by the number of insertions. -/
def updateCallIndex (code : List Instruction) (originalImports : Nat)
    (inserts : List Insertion) : List Instruction :=
  code.map fun instruction =>
    match instruction with
    | .call callIndex =>
      match inserts.findIdx? (fun x => x.funcIdx = callIndex) with
      | some pos => .call (originalImports + pos)
      | none =>
        .call (if originalImports < callIndex then callIndex + inserts.length else callIndex)
    | other => other

/-- ext.rs `externalize`: duplicate each named exported function as
an import and rewire calls / exports / element segments. -/
def externalize (m : Module) (replacedFuncs : List String) : Except String Module := do
  let importSec ← match m.imports with
    | none => .error "Import section to exist"
    | some i => pure i
  let importFuncsTotal := importSec.countP (fun e => e.isFunc)
  let exports ← match m.exports with
    | none => .error "Export section to exist"
    | some e => pure e
  let replaces0 ← replacedFuncs.foldlM (fun acc f => do
    let exportPos ← match exports.findIdx? (fun entry => entry.field = f) with
      | none => .error "All functions of interest to exist"
      | some pos => pure pos
    match exports[exportPos]? with
    | none => .error "All functions of interest to exist"
    | some entry =>
      match entry.internal with
      | .func funcIdx =>
        if funcIdx < importFuncsTotal then .error "replaced function is an import"
        else
          match m.funcs with
          | none => .error "Functions section to exist"
          | some funcSection =>
            match funcSection[funcIdx - importFuncsTotal]? with
            | none => .error "function entry out of bounds"
            | some typeRef =>
              let ins : Insertion :=
                { exportIdx := exportPos, funcIdx := funcIdx,
                  typeRef := typeRef, name := entry.field }
              pure (acc ++ [ins])
      | _ => pure acc) ([] : List Insertion)
  let replaces := stableSort (fun a b => decide (a.exportIdx ≤ b.exportIdx)) replaces0
  let m1 : Module := { m with
    imports := some (importSec ++ replaces.map (fun r =>
      { module := "env", field := r.name, desc := .func r.typeRef })) }
  .ok { m1 with
    code := m1.code.map (List.map (fun b =>
      { b with code := updateCallIndex b.code importFuncsTotal replaces })),
    exports := m1.exports.map (List.map (fun entry =>
      match entry.internal with
      | .func funcIndex =>
        let newIndex := if importFuncsTotal ≤ funcIndex then funcIndex + replaces.length else funcIndex
        { entry with internal := .func newIndex }
      | _ => entry)),
    elements := m1.elements.map (List.map (fun seg =>
      { seg with members := seg.members.map (fun funcIndex =>
          if importFuncsTotal ≤ funcIndex then funcIndex + replaces.length else funcIndex) })) }

end Ext

/-! ## Concrete modules used as inputs of witnesses and counterexamples -/

/-- One function whose body holds a float constant (the input of the
gas-injector forbidden failure). -/
def forbiddenModule : Module :=
  { types := some [{ params := [], ret := none }],
    funcs := some [0],
    code := some [{ locals := [], code := [.f32Const 555555, .endOp] }] }

/-- The forbidden-floats rule set. -/
def forbiddenRules : RuleSet := RuleSet.default.withForbiddenFloats

/-- Two defined functions with distinct bodies (graph round-trip input). -/
def roundTripInput : Module :=
  { types := some [{ params := [], ret := none }],
    funcs := some [0, 0],
    code := some [{ locals := [], code := [.nop, .endOp] },
                  { locals := [], code := [.endOp] }] }

/-- A four-entry reference list. -/
def refList4 : RefList Nat := RefList.fromSlice [10, 20, 30, 40]

/-- A three-entry reference list. -/
def refList3 : RefList Nat := RefList.fromSlice [10, 20, 30]

/-- One imported function (stack cost 0) called from the only defined
function (stack-limiter input for the cost-0 call). -/
def costZeroCallModule : Module :=
  { types := some [{ params := [], ret := none }],
    imports := some [{ module := "env", field := "foo", desc := .func 0 }],
    funcs := some [0],
    code := some [{ locals := [], code := [.call 0, .endOp] }] }

/-- Default stack rules (limit 1024). -/
def defaultStackRules : StackHeight.StackRules := { stackLimit := 1024 }

/-- A module with one exported function of non-zero stack cost (one
local), for the thunk-synthesis witness. -/
def thunkInputModule : Module :=
  { types := some [{ params := [], ret := none }],
    funcs := some [0],
    exports := some [{ field := "main", internal := .func 0 }],
    code := some [{ locals := [(1, .i32)], code := [.endOp] }] }

/-- Optimizer input: two defined functions, one kept export, a
non-func import keeping the import section non-empty. -/
def optInputModule : OModule :=
  { types := some [{ params := [], ret := none }],
    imports := some [{ module := "env", field := "memory", desc := .memory { initial := 1, maximum := some 1 } }],
    funcs := some [0, 0],
    globals := some [],
    exports := some [{ field := "keep", internal := .func 0 },
                     { field := "unused", internal := .func 1 }],
    code := some [{ locals := [], code := .call 0 .nil },
                  { locals := [], code := .nil }] }

/-- An optimizer module with an export section but no type section. -/
def noTypesOModule : OModule :=
  { exports := some [] }

/-- Packer input whose last data segment has length 4 (a multiple of 4). -/
def packInput4 : Module :=
  { types := some [{ params := [], ret := none }, { params := [.i32, .i32], ret := none }],
    imports := some [{ module := "env", field := "ret", desc := .func 1 }],
    funcs := some [0],
    exports := some [{ field := "deploy", internal := .func 1 }],
    code := some [{ locals := [], code := [.endOp] }],
    data := some [{ index := 0, offset := [.i32Const 0, .endOp], value := [7, 7, 7, 7] }] }

/-- Packer input whose last data segment has length 3. -/
def packInput3 : Module :=
  { types := some [{ params := [], ret := none }, { params := [.i32, .i32], ret := none }],
    imports := some [{ module := "env", field := "ret", desc := .func 1 }],
    funcs := some [0],
    exports := some [{ field := "deploy", internal := .func 1 }],
    code := some [{ locals := [], code := [.endOp] }],
    data := some [{ index := 0, offset := [.i32Const 0, .endOp], value := [7, 7, 7] }] }

/-- The raw module bytes embedded by the packer witnesses. -/
def packRawBytes : List Nat := [1, 2, 3]

/-- Externalizer input: one function import, two defined functions, the
second one exported as `foo`; the first defined function (combined index
1 = the original import count) is called from the first body. -/
def extInputModule : Module :=
  { types := some [{ params := [], ret := none }],
    imports := some [{ module := "env", field := "a", desc := .func 0 }],
    funcs := some [0, 0],
    exports := some [{ field := "foo", internal := .func 2 }],
    code := some [{ locals := [], code := [.call 1, .endOp] },
                  { locals := [], code := [.endOp] }] }

/-- The module carried by the gas injector's error variant (the input
with the gas signature and import appended, the failing body's call
indices already shifted). -/
def gasErrModule : Module :=
  { types := some [{ params := [], ret := none }, { params := [.i32], ret := none }],
    imports := some [{ module := "env", field := "gas", desc := .func 1 }],
    funcs := some [0],
    code := some [{ locals := [], code := [.f32Const 555555, .endOp] }] }

/-- `emit(ingest(roundTripInput))`: the first declared function got the
last ingested body, the second an empty one. -/
def roundTripOutput : Module :=
  { types := some [{ params := [], ret := none }],
    funcs := some [0, 0],
    code := some [{ locals := [], code := [.endOp] },
                  { locals := [], code := [] }] }

/-- Output of `externalize(extInputModule, ["foo"])`. -/
def extOutputModule : Module :=
  { types := some [{ params := [], ret := none }],
    imports := some [{ module := "env", field := "a", desc := .func 0 },
                     { module := "env", field := "foo", desc := .func 0 }],
    funcs := some [0, 0],
    exports := some [{ field := "foo", internal := .func 3 }],
    code := some [{ locals := [], code := [.call 1, .endOp] },
                  { locals := [], code := [.endOp] }] }

/-- The empty optimizer module (no sections at all). -/
def emptyOModule : OModule := {}

/-- A replacement-map association list binds key `k` to thunk `t` at the
position its `findIdx?` lookup (the one `fixupIdx` performs) returns. -/
def StackHeight.rmapHas (rm : List (Nat × StackHeight.Thunk)) (k : Nat)
    (t : StackHeight.Thunk) : Prop :=
  ∃ i, rm.findIdx? (fun p => p.1 = k) = some i ∧ rm[i]? = some (k, t)

/-- The `SHParts` value produced by `stackParts` on `thunkInputModule`. -/
def thunkSHParts : StackHeight.SHParts :=
  { costs := [1],
    instrumented :=
      { types := some [{ params := [], ret := none }],
        funcs := some [0],
        globals := some [{ content := .i32, isMut := true,
                           init := [.i32Const 0, .endOp] }],
        exports := some [{ field := "main", internal := .func 0 }],
        code := some [{ locals := [(1, .i32)], code := [.endOp] }] },
    rmap := [(0, { signature := { params := [], ret := none }, calleeStackCost := 1 })],
    base := 1,
    result :=
      { types := some [{ params := [], ret := none }, { params := [], ret := none }],
        funcs := some [0, 1],
        globals := some [{ content := .i32, isMut := true,
                           init := [.i32Const 0, .endOp] }],
        exports := some [{ field := "main", internal := .func 1 }],
        code := some [{ locals := [(1, .i32)], code := [.endOp] },
                      { locals := [],
                        code := [ .getGlobal 0, .i32Const 1, .i32Add, .setGlobal 0,
                                  .getGlobal 0, .i32Const 1024, .i32GtU,
                                  .ifOp .noResult, .unreachable, .endOp,
                                  .call 0,
                                  .getGlobal 0, .i32Const 1, .i32Sub, .setGlobal 0,
                                  .endOp ] }] } }

/-- Written from the spec's wording of the optimizer's second pass ("for
every referential index `x` decrement `x` by the count of eliminated
indices strictly less than `x`"): apply `d` to every call target of a
code sequence; to be compared with `updateCallIndexN`. -/
def Optimizer.specDecCalls (d : Nat → Nat) : NSeq → NSeq
  | .nil => .nil
  | .block t body rest =>
    .block t (Optimizer.specDecCalls d body) (Optimizer.specDecCalls d rest)
  | .loopOp t body rest =>
    .loopOp t (Optimizer.specDecCalls d body) (Optimizer.specDecCalls d rest)
  | .ifOp t body rest =>
    .ifOp t (Optimizer.specDecCalls d body) (Optimizer.specDecCalls d rest)
  | .call idx rest => .call (d idx) (Optimizer.specDecCalls d rest)
  | .callIndirect typeIdx reserved rest =>
    .callIndirect typeIdx reserved (Optimizer.specDecCalls d rest)
  | .getGlobal idx rest => .getGlobal idx (Optimizer.specDecCalls d rest)
  | .setGlobal idx rest => .setGlobal idx (Optimizer.specDecCalls d rest)
  | .plain tag rest => .plain tag (Optimizer.specDecCalls d rest)

/-- Spec-side companion of `specDecCalls` for get_global/set_global
targets; to be compared with `updateGlobalIndexN`. -/
def Optimizer.specDecGlobals (d : Nat → Nat) : NSeq → NSeq
  | .nil => .nil
  | .block t body rest =>
    .block t (Optimizer.specDecGlobals d body) (Optimizer.specDecGlobals d rest)
  | .loopOp t body rest =>
    .loopOp t (Optimizer.specDecGlobals d body) (Optimizer.specDecGlobals d rest)
  | .ifOp t body rest =>
    .ifOp t (Optimizer.specDecGlobals d body) (Optimizer.specDecGlobals d rest)
  | .call idx rest => .call idx (Optimizer.specDecGlobals d rest)
  | .callIndirect typeIdx reserved rest =>
    .callIndirect typeIdx reserved (Optimizer.specDecGlobals d rest)
  | .getGlobal idx rest => .getGlobal (d idx) (Optimizer.specDecGlobals d rest)
  | .setGlobal idx rest => .setGlobal (d idx) (Optimizer.specDecGlobals d rest)
  | .plain tag rest => .plain tag (Optimizer.specDecGlobals d rest)

/-- The `OptParts` value produced by `optimizeParts optInputModule
["keep"]` (function 1 is unreachable and eliminated). -/
def optPartsKeep : Optimizer.OptParts :=
  { result := { types := some [{ params := [], ret := none }],
                imports := some [{ module := "env", field := "memory",
                                   desc := .memory { initial := 1, maximum := some 1 } }],
                funcs := some [0],
                globals := some [],
                exports := some [{ field := "keep", internal := .func 0 }],
                code := some [{ locals := [], code := .call 0 .nil }] },
    kept := { types := some [{ params := [], ret := none }],
              imports := some [{ module := "env", field := "memory",
                                 desc := .memory { initial := 1, maximum := some 1 } }],
              funcs := some [0],
              globals := some [],
              exports := some [{ field := "keep", internal := .func 0 }],
              code := some [{ locals := [], code := .call 0 .nil }] },
    elimTypes := [],
    elimFuncsImports := [],
    elimFuncsDefined := [1],
    elimGlobalsImports := [],
    elimGlobalsDefined := [],
    topFuncs := 0,
    topGlobals := 0 }

/-- `round_up_4` as the spec words it (rounding `n` up to the nearest
multiple of 4); written from the spec, to be compared with the packer's
own offset arithmetic. -/
def roundUp4Spec (n : Nat) : Nat := if n % 4 = 0 then n else n + (4 - n % 4)

/-- Output of `pack_instance(packRawBytes, packInput3)`. -/
def packOutput3 : Module :=
  { types := some [{ params := [], ret := none },
                   { params := [.i32, .i32], ret := none },
                   { params := [], ret := none }],
    imports := some [{ module := "env", field := "ret", desc := .func 1 }],
    funcs := some [0, 2],
    exports := some [{ field := "call", internal := .func 2 }],
    code := some [{ locals := [], code := [.endOp] },
                  { locals := [],
                    code := [.call 1, .i32Const 4, .i32Const 3, .call 0, .endOp] }],
    data := some [{ index := 0, offset := [.i32Const 0, .endOp], value := [7, 7, 7] },
                  { index := 0, offset := [.i32Const 4, .endOp], value := [1, 2, 3] }] }

/-! ## Section: theorems -/

/-- No opcode is categorised as `globalVar` by `InstructionType.op`:
get_global/set_global fall into the `localVar` arm of rules.rs. -/
theorem instructionTypeOpNeGlobal (opcode : Instruction) :
    InstructionType.op opcode ≠ .globalVar := by
  cases opcode <;> simp [InstructionType.op]

theorem ruleSetProcessEqProcessType (s : RuleSet) (opcode : Instruction) :
    s.process opcode = s.processType (InstructionType.op opcode) := rfl

/-- C10: `InstructionType::op` maps get_global and set_global to the
`Local` category (not `Global`); consequently `Set::process` on those
instructions returns the metering assigned to `Local`, and overriding the
`Global` category's metering (with `Fixed`, `Forbidden` or anything else)
changes no instruction's cost. -/
theorem claimC10 :
    (∀ i : Nat, InstructionType.op (.getGlobal i) = .localVar
      ∧ InstructionType.op (.setGlobal i) = .localVar)
  ∧ (∀ (s : RuleSet) (i : Nat),
      s.process (.getGlobal i) = s.processType .localVar
      ∧ s.process (.setGlobal i) = s.processType .localVar)
  ∧ (∀ (s : RuleSet) (mt : Metering) (opcode : Instruction),
      (s.withEntry .globalVar mt).process opcode = s.process opcode) := by
  refine ⟨fun i => ⟨rfl, rfl⟩, fun s i => ⟨rfl, rfl⟩, fun s mt opcode => ?_⟩
  simp only [RuleSet.process, RuleSet.withEntry, if_neg (instructionTypeOpNeGlobal opcode)]

/-- C1: graph round trip is broken for a module with two defined
functions — the ingest loop writes every body into the first declared
function (its `idx` is never incremented), so `emit(ingest(M))` re-emits
the second body as empty and drops the first. -/
theorem claimC1 :
    (Graph.fromElements roundTripInput >>= Graph.generate) = .ok roundTripOutput
  ∧ (roundTripOutput.code.getD []).map (fun b => b.code.length) = [1, 0]
  ∧ (roundTripInput.code.getD []).map (fun b => b.code.length) = [2, 1]
  ∧ ([1, 0] : List Nat) ≠ [2, 1] :=
  ⟨rfl, rfl, rfl, by decide⟩

/-- C2: whenever `inject_gas_counter` returns its error variant, the
carried module has one import more than the input (the gas import was
already added, so the payload is not the unchanged input). -/
theorem claimC2 (m : Module) (rules : RuleSet) (errM : Module)
    (h : Gas.injectGasCounter m rules = .error errM) :
    (errM.imports.getD []).length = (m.imports.getD []).length + 1 ∧ errM ≠ m := by
  have h' : (if (Gas.gasProcessed m rules).2.1 = true then
        (Except.error (Gas.gasProcessed m rules).1 : Except Module Module)
      else if (Gas.gasProcessed m rules).2.2 = true then
        Except.ok (Gas.addGrowCounter (Gas.gasProcessed m rules).1 rules
          ((m.imports.getD []).countP (fun e => e.isFunc)))
      else Except.ok (Gas.gasProcessed m rules).1) = Except.error errM := h
  have herr : errM = (Gas.gasProcessed m rules).1 := by
    split at h'
    · exact (Except.error.inj h').symm
    · split at h' <;> exact absurd h' (by simp)
  have hlen : ((Gas.gasProcessed m rules).1.imports.getD []).length
      = (m.imports.getD []).length + 1 := by
    simp [Gas.gasProcessed]
  subst herr
  refine ⟨hlen, fun he => ?_⟩
  have := congrArg (fun mm => (mm.imports.getD []).length) he
  simp only [hlen] at this
  omega

/-- C2 witness: the forbidden-floats module with a float constant. -/
theorem claimC2Witness :
    Gas.injectGasCounter forbiddenModule forbiddenRules = .error gasErrModule
  ∧ ((gasErrModule.imports.getD []).length = (forbiddenModule.imports.getD []).length + 1
      ∧ gasErrModule ≠ forbiddenModule) :=
  ⟨rfl, claimC2 forbiddenModule forbiddenRules gasErrModule rfl⟩

/-- C3: `done_delete` removes at already-shifted positions: deleting the
strictly increasing index set {1, 2} from a 4-element list leaves the
entry of original order 2 attached (order 1) and detaches the entry of
original order 3 instead; on a 3-element list the same index set hits an
out-of-bounds `Vec::remove`. -/
theorem claimC3 :
    (refList4.delete [1, 2]).toOption.map
      (fun l => (l.order 1, l.order 2, l.order 3, l.len)) = some (none, some 1, none, 2)
  ∧ (refList3.delete [1, 2]).isOk = false := by
  decide

/-- C8: in `externalize`, the call to the function at combined index
exactly equal to the original import count is left unchanged (the source
compares with `>` instead of `>=`), while the export entry for the same
function space is shifted with `>=`. -/
theorem claimC8 :
    Ext.externalize extInputModule ["foo"] = .ok extOutputModule
  ∧ (extOutputModule.code.getD []).map (fun b => b.code) = [[.call 1, .endOp], [.endOp]]
  ∧ extOutputModule.exports = some [{ field := "foo", internal := .func 3 }]
  ∧ (1 : Nat) ≠ 1 + 1 :=
  ⟨rfl, rfl, rfl, by decide⟩

namespace Optimizer

theorem panickedOnlyOk (a : α) : PanickedOnly (Except.ok a : Except OptError α) := by
  intro e h
  exact absurd h (by simp)

theorem panickedOnlyErr (msg : String) :
    PanickedOnly (Except.error (OptError.panicked msg) : Except OptError α) := by
  intro e h
  exact ⟨msg, (Except.error.inj h).symm⟩

theorem panickedOnlyBind {x : Except OptError α} {f : α → Except OptError β}
    (hx : PanickedOnly x) (hf : ∀ a, PanickedOnly (f a)) : PanickedOnly (x >>= f) := by
  intro e h
  cases x with
  | error e' =>
    simp only [bind, Except.bind] at h
    cases Except.error.inj h
    exact hx _ rfl
  | ok a =>
    simp only [bind, Except.bind] at h
    exact hf a e h

theorem panickedOnlyResolveFunction (m : OModule) (i : Nat) :
    PanickedOnly (resolveFunction m i) := by
  intro e h
  unfold resolveFunction at h
  cases him : m.imports with
  | none => rw [him] at h; exact ⟨_, (Except.error.inj h).symm⟩
  | some imports => rw [him] at h; exact absurd h (by simp)

theorem panickedOnlyResolveGlobal (m : OModule) (i : Nat) :
    PanickedOnly (resolveGlobal m i) := by
  intro e h
  unfold resolveGlobal at h
  cases him : m.imports with
  | none => rw [him] at h; exact ⟨_, (Except.error.inj h).symm⟩
  | some imports => rw [him] at h; exact absurd h (by simp)

theorem panickedOnlyPushCodeSymbols (m : OModule) (code : NSeq) :
    PanickedOnly (pushCodeSymbols m code) := by
  induction code with
  | nil => exact panickedOnlyOk []
  | block t body rest ihInner ihRest =>
    exact panickedOnlyBind ihInner (fun inner =>
      panickedOnlyBind ihRest (fun tail => panickedOnlyOk _))
  | loopOp t body rest ihInner ihRest =>
    exact panickedOnlyBind ihInner (fun inner =>
      panickedOnlyBind ihRest (fun tail => panickedOnlyOk _))
  | ifOp t body rest ihInner ihRest =>
    exact panickedOnlyBind ihInner (fun inner =>
      panickedOnlyBind ihRest (fun tail => panickedOnlyOk _))
  | call idx rest ih =>
    exact panickedOnlyBind (panickedOnlyResolveFunction m idx) (fun s =>
      panickedOnlyBind ih (fun tail => panickedOnlyOk _))
  | callIndirect typeIdx reserved rest ih => exact ih
  | getGlobal idx rest ih =>
    exact panickedOnlyBind (panickedOnlyResolveGlobal m idx) (fun s =>
      panickedOnlyBind ih (fun tail => panickedOnlyOk _))
  | setGlobal idx rest ih =>
    exact panickedOnlyBind (panickedOnlyResolveGlobal m idx) (fun s =>
      panickedOnlyBind ih (fun tail => panickedOnlyOk _))
  | plain tag rest ih => exact ih

theorem panickedOnlyFoldlM {f : β → α → Except OptError β}
    (hf : ∀ b a, PanickedOnly (f b a)) :
    ∀ (l : List α) (b : β), PanickedOnly (l.foldlM f b) := by
  intro l
  induction l with
  | nil => intro b; exact panickedOnlyOk b
  | cons x xs ih =>
    intro b
    rw [List.foldlM_cons]
    exact panickedOnlyBind (hf b x) (fun b' => ih b')

theorem panickedOnlyMapM {f : α → Except OptError β}
    (hf : ∀ a, PanickedOnly (f a)) :
    ∀ l : List α, PanickedOnly (l.mapM f) := by
  intro l
  induction l with
  | nil => exact panickedOnlyOk []
  | cons x xs ih =>
    rw [List.mapM_cons]
    exact panickedOnlyBind (hf x) (fun b =>
      panickedOnlyBind ih (fun bs => panickedOnlyOk _))

theorem panickedOnlyExpandOne (m : OModule) (s : Symbol) :
    PanickedOnly (expandOne m s) := by
  intro e h
  cases s with
  | exportSym idx =>
    simp only [expandOne] at h
    split at h
    · exact ⟨_, (Except.error.inj h).symm⟩
    · split at h
      · exact ⟨_, (Except.error.inj h).symm⟩
      · split at h
        · exact panickedOnlyBind (panickedOnlyResolveFunction m _)
            (fun s => panickedOnlyOk [s]) e h
        · exact panickedOnlyBind (panickedOnlyResolveGlobal m _)
            (fun s => panickedOnlyOk [s]) e h
        · exact absurd h (by simp)
  | importSym idx =>
    simp only [expandOne] at h
    split at h
    · exact ⟨_, (Except.error.inj h).symm⟩
    · split at h
      · exact ⟨_, (Except.error.inj h).symm⟩
      · split at h <;> exact absurd h (by simp)
  | funcSym idx =>
    simp only [expandOne] at h
    split at h
    · exact ⟨_, (Except.error.inj h).symm⟩
    · split at h
      · exact ⟨_, (Except.error.inj h).symm⟩
      · refine panickedOnlyBind (panickedOnlyPushCodeSymbols m _) (fun syms => ?_) e h
        intro e' h'
        split at h'
        · exact ⟨_, (Except.error.inj h').symm⟩
        · split at h'
          · exact ⟨_, (Except.error.inj h').symm⟩
          · exact absurd h' (by simp)
  | globalSym idx =>
    simp only [expandOne] at h
    split at h
    · exact ⟨_, (Except.error.inj h).symm⟩
    · split at h
      · exact ⟨_, (Except.error.inj h).symm⟩
      · exact panickedOnlyPushCodeSymbols m _ e h
  | typeSym idx =>
    simp only [expandOne] at h
    exact absurd h (by simp)

theorem panickedOnlyExpandLoop (m : OModule) :
    ∀ (fuel : Nat) (fringe stop set : List Symbol),
      PanickedOnly (expandLoop m fuel fringe stop set) := by
  intro fuel
  induction fuel with
  | zero => intro fringe stop set; exact panickedOnlyOk set
  | succ n ih =>
    intro fringe stop set
    cases fringe with
    | nil => exact panickedOnlyOk set
    | cons next rest =>
      rw [expandLoop]
      split
      · exact ih rest stop set
      · exact panickedOnlyBind (panickedOnlyExpandOne m next) (fun newSymbols =>
          ih _ _ _)

theorem panickedOnlyExpandSymbols (m : OModule) (set : List Symbol) :
    PanickedOnly (expandSymbols m set) :=
  panickedOnlyExpandLoop m _ set [] set

theorem panickedOnlySeedAndExpand (m : OModule) (usedExports : List String)
    (exports : List ExportEntry) :
    PanickedOnly (seedAndExpand m usedExports exports) := by
  unfold seedAndExpand
  refine panickedOnlyBind (panickedOnlyFoldlM (fun acc seg => ?_) _ _) (fun dataSyms => ?_)
  · exact panickedOnlyBind (panickedOnlyPushCodeSymbols m seg.offset)
      (fun syms => panickedOnlyOk _)
  · refine panickedOnlyBind (panickedOnlyFoldlM (fun acc seg => ?_) _ _) (fun elemSyms => ?_)
    · exact panickedOnlyBind (panickedOnlyPushCodeSymbols m seg.offset) (fun offSyms =>
        panickedOnlyBind (panickedOnlyMapM (fun funcIndex =>
          panickedOnlyResolveFunction m funcIndex) _) (fun memberSyms => panickedOnlyOk _))
    · exact panickedOnlyExpandSymbols m _

theorem panickedOnlyFuncsLoop (stayP : Nat → Bool) (topFuncs : Nat) :
    ∀ (funcs : List Nat) (oldIdx index : Nat) (bodies : Option (List OFuncBody)),
      PanickedOnly (funcsLoop stayP topFuncs funcs oldIdx index bodies) := by
  intro funcs
  induction funcs with
  | nil => intro oldIdx index bodies; exact panickedOnlyOk _
  | cons f rest ih =>
    intro oldIdx index bodies
    simp only [funcsLoop]
    split
    · exact panickedOnlyBind (ih _ _ _) (fun r => panickedOnlyOk _)
    · cases bodies with
      | none => exact panickedOnlyErr _
      | some bs =>
        dsimp only
        split
        · exact panickedOnlyBind (ih _ _ _) (fun r => panickedOnlyOk _)
        · exact panickedOnlyErr _

theorem panickedOnlyElimAndRewire (m : OModule) (exports : List ExportEntry)
    (stay : List Symbol) : PanickedOnly (elimAndRewire m exports stay) := by
  intro e h
  simp only [elimAndRewire] at h
  split at h
  · exact ⟨_, (Except.error.inj h).symm⟩
  · split at h
    · exact ⟨_, (Except.error.inj h).symm⟩
    · split at h
      · exact ⟨_, (Except.error.inj h).symm⟩
      · split at h
        · exact ⟨_, (Except.error.inj h).symm⟩
        · split at h
          · exact ⟨_, (Except.error.inj h).symm⟩
          · exact panickedOnlyBind (panickedOnlyFuncsLoop _ _ _ _ _ _)
              (fun fl => panickedOnlyOk _) e h

theorem panickedOnlyOptimizeRest (m : OModule) (usedExports : List String)
    (exports : List ExportEntry) :
    PanickedOnly (seedAndExpand m usedExports exports >>= elimAndRewire m exports) :=
  panickedOnlyBind (panickedOnlySeedAndExpand m usedExports exports)
    (fun stay => panickedOnlyElimAndRewire m exports stay)

theorem optimizePartsSome (m : OModule) (usedExports : List String)
    (exports : List ExportEntry) (hex : m.exports = some exports) :
    optimizeParts m usedExports
      = seedAndExpand m usedExports exports >>= elimAndRewire m exports := by
  unfold optimizeParts
  rw [hex]

theorem elimAndRewireNoTypes (m : OModule) (exports : List ExportEntry)
    (stay : List Symbol) (htypes : m.types = none) :
    elimAndRewire m exports stay = .error (.panicked "Functons section to exist") := by
  unfold elimAndRewire
  rw [htypes]

end Optimizer

/-- C9 counterexample: the keep-list is irrelevant — with an empty
keep-list and no export section, `optimize` still returns
`NoExportSection`, while the claim says it only does so for a non-empty
keep-list. -/
theorem claimC9Counterexample :
    Optimizer.optimize emptyOModule ([] : List String) = .error .noExportSection := rfl

/-- C9 (amended): `optimize` returns `NoExportSection` exactly when the
export section is absent, regardless of the keep-list; and when the
export section is present but the type section is absent, `optimize`
fails with a panic instead of completing normally. -/
theorem claimC9Amended (m : OModule) (usedExports : List String) :
    (Optimizer.optimize m usedExports = .error .noExportSection ↔ m.exports = none)
  ∧ (m.exports ≠ none → m.types = none →
      ∃ msg, Optimizer.optimize m usedExports = .error (.panicked msg)) := by
  constructor
  · constructor
    · intro h
      cases hex : m.exports with
      | none => rfl
      | some exports =>
        exfalso
        unfold Optimizer.optimize at h
        rw [Optimizer.optimizePartsSome m usedExports exports hex] at h
        have hmap : (Optimizer.seedAndExpand m usedExports exports >>=
            Optimizer.elimAndRewire m exports) = .error .noExportSection := by
          cases hrest : (Optimizer.seedAndExpand m usedExports exports >>=
              Optimizer.elimAndRewire m exports) with
          | error e => rw [hrest] at h; simp [Except.map] at h; rw [h]
          | ok p => rw [hrest] at h; simp [Except.map] at h
        obtain ⟨msg, hmsg⟩ :=
          Optimizer.panickedOnlyOptimizeRest m usedExports exports _ hmap
        exact Optimizer.OptError.noConfusion hmsg
    · intro h
      unfold Optimizer.optimize Optimizer.optimizeParts
      rw [h]
      rfl
  · intro hex htypes
    cases hexs : m.exports with
    | none => exact absurd hexs hex
    | some exports =>
      unfold Optimizer.optimize
      rw [Optimizer.optimizePartsSome m usedExports exports hexs]
      cases hseed : Optimizer.seedAndExpand m usedExports exports with
      | error e =>
        obtain ⟨msg, hmsg⟩ := Optimizer.panickedOnlySeedAndExpand m usedExports exports e hseed
        refine ⟨msg, ?_⟩
        rw [hmsg]
        rfl
      | ok stay =>
        refine ⟨"Functons section to exist", ?_⟩
        show (Except.map (fun p => p.result) (Optimizer.elimAndRewire m exports stay)) = _
        rw [Optimizer.elimAndRewireNoTypes m exports stay htypes]
        rfl

/-- C9 witness for the amended claim. -/
theorem claimC9AmendedWitness :
    (Optimizer.optimize emptyOModule ["main"] = .error .noExportSection)
  ∧ (∃ msg, Optimizer.optimize noTypesOModule ["main"] = .error (.panicked msg)) :=
  ⟨(claimC9Amended emptyOModule ["main"]).1.mpr rfl,
   (claimC9Amended noTypesOModule ["main"]).2 (by simp [noTypesOModule]) rfl⟩

theorem usizeToI32Small (n : Nat) (h : n < 2147483648) :
    Pack.usizeToI32 n = (n : Int) := by
  unfold Pack.usizeToI32 u32ToI32
  rw [Nat.mod_eq_of_lt (lt_trans h (by norm_num))]
  rw [if_pos h]

theorem packRetStepData (m : Module) (importSec : List ImportEntry) (k : Nat) :
    (Pack.packRetStep m importSec k).1.data = m.data := by
  cases hf : Pack.findRet importSec 0 <;> simp [Pack.packRetStep, hf]

theorem packAppendLast (raw : List Nat) (ctor1 p : Module)
    (createFuncId ctorImportFunctions retFunctionId : Nat)
    (h : Pack.packAppend raw ctor1 createFuncId ctorImportFunctions retFunctionId = .ok p)
    (seg : DataSegment) (hlast : (ctor1.data.getD []).getLast? = some seg)
    (o0 : Int) (offRest : List Instruction)
    (hoff : seg.offset = .i32Const o0 :: offRest) :
    (p.data.getD []).getLast? = some
      { index := seg.index,
        offset := [.i32Const (o0 + (Pack.usizeToI32 seg.value.length + 4)
                    - Pack.usizeToI32 seg.value.length % 4), .endOp],
        value := raw } := by
  cases hd : ctor1.data with
  | none => rw [hd] at hlast; simp at hlast
  | some segs =>
    rw [hd] at hlast
    simp only [Option.getD_some] at hlast
    simp only [Pack.packAppend, hd, Option.getD_some, hlast, hoff, bind, Except.bind,
      Except.ok.injEq] at h
    subst h
    simp [List.getLast?_concat]

/-- C6 counterexample: on a constructor whose last data segment sits at
offset 0 with length 4, `pack_instance` places the raw bytes at offset 8,
not at `0 + round_up_4 4 = 4` as the claim predicts. -/
theorem claimC6Counterexample :
    ((Pack.packInstance packRawBytes packInput4).toOption.bind
        (fun p => (p.data.getD []).getLast?)) =
      some { index := 0, offset := [.i32Const 8, .endOp], value := packRawBytes }
    ∧ (8 : Int) ≠ (0 : Int) + (roundUp4Spec 4 : Int) := by
  exact ⟨rfl, by decide⟩

/-- C6 amended: when the constructor's last data segment has offset
expression `i32.const o0 :: _` and value of length `len`, `pack_instance`
appends the raw bytes as a new last segment of the same memory index at
offset `o0 + (len + 4) - len % 4` (pack.rs computes
`offst + (len + 4) - len % 4`, which exceeds `round_up_4` by 4 whenever
`len` is a multiple of 4). -/
theorem claimC6Amended (raw : List Nat) (m p : Module)
    (h : Pack.packInstance raw m = .ok p)
    (seg : DataSegment) (hlast : (m.data.getD []).getLast? = some seg)
    (o0 : Int) (offRest : List Instruction)
    (hoff : seg.offset = .i32Const o0 :: offRest)
    (hlen : seg.value.length < 2147483648) :
    (p.data.getD []).getLast? = some
      { index := seg.index,
        offset := [.i32Const (o0 + ((seg.value.length : Int) + 4)
                    - (seg.value.length : Int) % 4), .endOp],
        value := raw } := by
  have husize : Pack.usizeToI32 seg.value.length = (seg.value.length : Int) :=
    usizeToI32Small _ hlen
  rw [← husize]
  simp only [Pack.packInstance, bind, Except.bind] at h
  split at h
  · exact absurd h (by simp)
  · split at h
    · exact absurd h (by simp)
    · exact packAppendLast _ _ _ _ _ _ h seg
        (by rw [packRetStepData]; exact hlast) o0 offRest hoff

/-- C6 witness for the amended claim, at a last segment of length 3. -/
theorem claimC6AmendedWitness :
    (packOutput3.data.getD []).getLast? = some
      { index := 0,
        offset := [.i32Const ((0 : Int) + (((3 : Nat) : Int) + 4) - ((3 : Nat) : Int) % 4),
                   .endOp],
        value := packRawBytes } :=
  claimC6Amended packRawBytes packInput3 packOutput3 rfl
    { index := 0, offset := [.i32Const 0, .endOp], value := [7, 7, 7] } rfl
    0 [.endOp] rfl (by decide)

/-- C4 counterexample: on a module whose only defined function calls
an imported function (stack cost 0), `inject_stack_counter` still replaces
the `call 0` with the full 15-instruction instrumented sequence — the
call is not left unchanged. -/
theorem claimC4Counterexample :
    ((StackHeight.injectStackCounter costZeroCallModule defaultStackRules).toOption.bind
        (fun m => (m.code.getD [])[0]?.map (fun b => b.code))) =
      some (StackHeight.instrumentCall 0 0 0 1024 ++ [.endOp])
    ∧ StackHeight.instrumentCall 0 0 0 1024 ++ [.endOp] ≠ [.call 0, .endOp] := by
  refine ⟨rfl, fun h => ?_⟩
  have hlen := congrArg List.length h
  simp [StackHeight.instrumentCall] at hlen

/-- C4 amended: `instrument_function` wraps every `call`, including one
whose callee has stack cost 0, with the `instrument_call!` sequence
(preamble, call, postamble); no call is left unchanged. -/
theorem claimC4Amended (g limit : Nat) (costs : List Nat)
    (rest : List Instruction) (idx : Nat)
    (hcost : costs[idx]? = some 0) (out : List Instruction)
    (h : StackHeight.instrumentFunction g costs limit (.call idx :: rest) = .ok out) :
    ∃ tail, StackHeight.instrumentFunction g costs limit rest = .ok tail ∧
      out = StackHeight.instrumentCall idx g (u32ToI32 0) (u32ToI32 limit) ++ tail := by
  simp only [StackHeight.instrumentFunction, hcost, bind, Except.bind] at h
  cases hr : StackHeight.instrumentFunction g costs limit rest with
  | error e => rw [hr] at h; exact absurd h (by simp)
  | ok tail =>
    rw [hr] at h
    simp only [Except.ok.injEq] at h
    exact ⟨tail, rfl, h.symm⟩

/-- C4 witness for the amended claim: a cost-0 call before a lone `end`. -/
theorem claimC4AmendedWitness :
    (([0] : List Nat)[0]? = some 0)
    ∧ (∃ tail, StackHeight.instrumentFunction 0 [0] 1024 [.endOp] = .ok tail ∧
        StackHeight.instrumentCall 0 0 (u32ToI32 0) (u32ToI32 1024) ++ [.endOp] =
          StackHeight.instrumentCall 0 0 (u32ToI32 0) (u32ToI32 1024) ++ tail) := by
  refine ⟨rfl, claimC4Amended 0 1024 [0] [.endOp] 0 rfl
    (StackHeight.instrumentCall 0 0 (u32ToI32 0) (u32ToI32 1024) ++ [.endOp]) ?_⟩
  rfl

namespace StackHeight

theorem rmapInsertHasSelf (rm : List (Nat × Thunk)) (k : Nat) (t : Thunk) :
    rmapHas (rmapInsert rm k t) k t := by
  unfold rmapInsert rmapHas
  split
  next hany =>
    have hfn : ((fun p : Nat × Thunk => decide (p.1 = k)) ∘
        (fun p : Nat × Thunk => if p.1 = k then (k, t) else p)) =
        (fun p : Nat × Thunk => decide (p.1 = k)) := by
      funext q; by_cases hq : q.1 = k <;> simp [hq]
    obtain ⟨x, hx, hpx⟩ := List.any_eq_true.1 hany
    have hsome : rm.findIdx? (fun q => decide (q.1 = k)) =
        some (rm.findIdx (fun q => decide (q.1 = k))) :=
      List.findIdx?_eq_some_of_exists ⟨x, hx, by simpa using hpx⟩
    refine ⟨rm.findIdx (fun q => decide (q.1 = k)), ?_, ?_⟩
    · rw [List.findIdx?_map, hfn]; exact hsome
    · obtain ⟨hlt, hpi, -⟩ := List.findIdx?_eq_some_iff_getElem.1 hsome
      rw [List.getElem?_map, List.getElem?_eq_getElem hlt]
      have hk : rm[rm.findIdx (fun q => decide (q.1 = k))].1 = k := by
        simpa using hpi
      simp [hk]
  next hany =>
    have hanyf : rm.any (fun q => decide (q.1 = k)) = false := by
      cases hb : rm.any (fun q => decide (q.1 = k)) with
      | true => exact absurd hb hany
      | false => rfl
    have hnone : rm.findIdx? (fun q => decide (q.1 = k)) = none := by
      rw [List.findIdx?_eq_none_iff]
      intro x hx
      simpa using List.any_eq_false.1 hanyf x hx
    refine ⟨rm.length, ?_, ?_⟩
    · rw [List.findIdx?_append, hnone]
      simp
    · rw [List.getElem?_append_right (Nat.le_refl _)]
      simp

theorem rmapInsertPreserves (rm : List (Nat × Thunk)) (k k' : Nat) (t t' : Thunk)
    (hne : k' ≠ k) (h : rmapHas rm k' t') : rmapHas (rmapInsert rm k t) k' t' := by
  obtain ⟨i, hfind, hget⟩ := h
  unfold rmapInsert
  split
  · have hfn : ((fun p : Nat × Thunk => decide (p.1 = k')) ∘
        (fun p : Nat × Thunk => if p.1 = k then (k, t) else p)) =
        (fun p : Nat × Thunk => decide (p.1 = k')) := by
      funext q; by_cases hq : q.1 = k <;> simp [hq, hne.symm]
    refine ⟨i, ?_, ?_⟩
    · rw [List.findIdx?_map, hfn]; exact hfind
    · rw [List.getElem?_map, hget]
      simp [hne]
  · have hlt : i < rm.length := by
      obtain ⟨hlt, -⟩ := List.getElem?_eq_some_iff.1 hget
      exact hlt
    refine ⟨i, ?_, ?_⟩
    · rw [List.findIdx?_append, hfind]; rfl
    · rw [List.getElem?_append, if_pos hlt]; exact hget

theorem foldAddThunkPreserves (m2 : Module) (costs : List Nat) (l : List Nat)
    (acc rm : List (Nat × Thunk))
    (h : l.foldlM (addCandidateThunk m2 costs) acc = .ok rm)
    (k : Nat) (t : Thunk) (hc : costs[k]? = some t.calleeStackCost)
    (hres : resolveFuncType k m2 = .ok t.signature)
    (ht : rmapHas acc k t) : rmapHas rm k t := by
  induction l generalizing acc with
  | nil =>
    simp only [List.foldlM_nil, pure, Except.pure, Except.ok.injEq] at h
    exact h ▸ ht
  | cons a l ih =>
    rw [List.foldlM_cons] at h
    cases hstep : addCandidateThunk m2 costs acc a with
    | error e => rw [hstep] at h; exact absurd h (by simp [bind, Except.bind])
    | ok acc' =>
      rw [hstep] at h
      simp only [bind, Except.bind] at h
      refine ih acc' h ?_
      by_cases hak : a = k
      · subst hak
        simp only [addCandidateThunk, hc] at hstep
        by_cases h0 : t.calleeStackCost = 0
        · rw [if_pos h0] at hstep
          cases Except.ok.inj hstep
          exact ht
        · rw [if_neg h0] at hstep
          simp only [hres, bind, Except.bind, Except.ok.injEq] at hstep
          subst hstep
          exact rmapInsertHasSelf acc a t
      · cases hca : costs[a]? with
        | none =>
          simp only [addCandidateThunk, hca] at hstep
          exact absurd hstep (by simp)
        | some ca =>
          simp only [addCandidateThunk, hca] at hstep
          by_cases h0 : ca = 0
          · rw [if_pos h0] at hstep
            cases Except.ok.inj hstep
            exact ht
          · rw [if_neg h0] at hstep
            cases hra : resolveFuncType a m2 with
            | error e =>
              rw [hra] at hstep
              exact absurd hstep (by simp [bind, Except.bind])
            | ok sig =>
              rw [hra] at hstep
              simp only [bind, Except.bind, Except.ok.injEq] at hstep
              subst hstep
              exact rmapInsertPreserves acc a k _ t
                (fun hk => hak hk.symm) ht

theorem foldAddThunkMem (m2 : Module) (costs : List Nat) (l : List Nat)
    (acc rm : List (Nat × Thunk))
    (h : l.foldlM (addCandidateThunk m2 costs) acc = .ok rm)
    (f c : Nat) (hf : f ∈ l) (hc : costs[f]? = some c) (h0 : c ≠ 0) :
    ∃ sig, resolveFuncType f m2 = .ok sig ∧
      rmapHas rm f { signature := sig, calleeStackCost := c } := by
  induction l generalizing acc with
  | nil => cases hf
  | cons a l ih =>
    rw [List.foldlM_cons] at h
    cases hstep : addCandidateThunk m2 costs acc a with
    | error e => rw [hstep] at h; exact absurd h (by simp [bind, Except.bind])
    | ok acc' =>
      rw [hstep] at h
      simp only [bind, Except.bind] at h
      rcases List.mem_cons.1 hf with hfa | hfl
      · subst hfa
        simp only [addCandidateThunk, hc, if_neg h0] at hstep
        cases hra : resolveFuncType f m2 with
        | error e =>
          rw [hra] at hstep
          exact absurd hstep (by simp [bind, Except.bind])
        | ok sig =>
          rw [hra] at hstep
          simp only [bind, Except.bind, Except.ok.injEq] at hstep
          subst hstep
          exact ⟨sig, rfl,
            foldAddThunkPreserves m2 costs l _ rm h f
              { signature := sig, calleeStackCost := c } hc hra
              (rmapInsertHasSelf acc f _)⟩
      · exact ih acc' h hfl

theorem mapMLengthExcept {ε α β : Type} {g : α → Except ε β} :
    ∀ (l : List α) (l' : List β), l.mapM g = .ok l' → l'.length = l.length := by
  intro l
  induction l with
  | nil =>
    intro l' h
    simp only [List.mapM_nil, pure, Except.pure, Except.ok.injEq] at h
    rw [← h]
    rfl
  | cons a l ih =>
    intro l' h
    rw [List.mapM_cons] at h
    cases ha : g a with
    | error e => rw [ha] at h; exact absurd h (by simp [bind, Except.bind])
    | ok b =>
      rw [ha] at h
      simp only [bind, Except.bind] at h
      cases hl : l.mapM g with
      | error e => rw [hl] at h; exact absurd h (by simp [bind, Except.bind])
      | ok bs =>
        rw [hl] at h
        simp only [bind, Except.bind, pure, Except.pure, Except.ok.injEq] at h
        rw [← h]
        simp [ih bs hl]

theorem withStackGlobalSpace (m : Module) :
    (withStackGlobal m).globalsSpace - 1 = m.globalsSpace := by
  simp [withStackGlobal, Module.globalsSpace, Module.importedGlobals]

end StackHeight

/-- C7: whenever the stack-height limiter succeeds, every function index
`f` referenced by an export entry or an element segment whose stack cost
is non-zero gets a synthesised thunk: the replacement map binds `f` at
some position `i` to a thunk carrying `f`'s own signature and cost; the
output module appends that signature to the type section, a matching
function entry, and a body that pushes each parameter in order, performs
exactly the instrumented call of `f`, then `end`; the fixup redirects `f`
to the thunk's combined index `base + i`, and every export entry and
element segment of the input reappears with its function indices passed
through that fixup. -/
theorem claimC7 (m : Module) (rules : StackHeight.StackRules) (p : StackHeight.SHParts)
    (h : StackHeight.stackParts m rules = .ok p)
    (f c : Nat)
    (hf : f ∈ StackHeight.exportFuncIndices m ++ StackHeight.elemFuncIndices m)
    (hc : p.costs[f]? = some c) (hcne : c ≠ 0) :
    ∃ i t, p.rmap.findIdx? (fun q => q.1 = f) = some i
      ∧ p.rmap[i]? = some (f, t)
      ∧ StackHeight.resolveFuncType f m = .ok t.signature
      ∧ t.calleeStackCost = c
      ∧ (p.result.types.getD [])[(m.types.getD []).length + i]? = some t.signature
      ∧ (p.result.funcs.getD [])[(m.funcs.getD []).length + i]? =
          some ((m.types.getD []).length + i)
      ∧ (p.result.code.getD [])[(m.code.getD []).length + i]? =
          some { locals := [],
                 code := StackHeight.thunkBody f m.globalsSpace t rules.stackLimit }
      ∧ StackHeight.fixupIdx p.rmap p.base f = p.base + i
      ∧ (∀ e ∈ m.exports.getD [], e.internal = .func f →
          ({ field := e.field, internal := .func (p.base + i) } : ExportEntry)
            ∈ p.result.exports.getD [])
      ∧ (∀ s ∈ m.elements.getD [],
          ({ index := s.index, offset := s.offset,
             members := s.members.map (StackHeight.fixupIdx p.rmap p.base) } : ElementSegment)
            ∈ p.result.elements.getD []) := by
  simp only [StackHeight.stackParts, bind, Except.bind, pure, Except.pure] at h
  split at h
  · exact absurd h (by simp)
  · rename_i costs0 hcosts
    split at h
    · exact absurd h (by simp)
    · rename_i newBodies hbodies
      split at h
      · exact absurd h (by simp)
      · rename_i rmapv hrmap
        obtain rfl := (Except.ok.inj h).symm
        obtain ⟨sig, hres, hhas⟩ :=
          StackHeight.foldAddThunkMem _ costs0 _ [] rmapv hrmap f c hf hc hcne
        obtain ⟨i, hfind, hget⟩ := hhas
        have hlt : i < rmapv.length := by
          obtain ⟨hlt, -⟩ := List.getElem?_eq_some_iff.1 hget
          exact hlt
        have hres' : StackHeight.resolveFuncType f m =
            .ok (({ signature := sig, calleeStackCost := c } :
              StackHeight.Thunk)).signature := hres
        refine ⟨i, { signature := sig, calleeStackCost := c },
          hfind, hget, hres', rfl, ?_, ?_, ?_, ?_, ?_, ?_⟩
        · simp only [StackHeight.appendThunks, StackHeight.withStackGlobal,
            Option.getD_some]
          rw [List.getElem?_append_right (Nat.le_add_right _ _),
            Nat.add_sub_cancel_left, List.getElem?_map, hget]
          rfl
        · simp only [StackHeight.appendThunks, StackHeight.withStackGlobal,
            Option.getD_some]
          rw [List.getElem?_append_right (Nat.le_add_right _ _),
            Nat.add_sub_cancel_left, List.getElem?_map, List.getElem?_range hlt]
          rfl
        · simp only [StackHeight.withStackGlobalSpace]
          simp only [StackHeight.appendThunks, StackHeight.withStackGlobal,
            Option.getD_some]
          simp only [StackHeight.withStackGlobal] at hbodies
          have hlen2 : ((Option.map (fun _ => newBodies) m.code).getD []).length
              = (m.code.getD []).length := by
            cases hcode : m.code with
            | none => rfl
            | some bodies =>
              rw [hcode] at hbodies
              simp only [Option.map_some', Option.getD_some] at hbodies ⊢
              exact StackHeight.mapMLengthExcept bodies newBodies hbodies
          rw [← hlen2, List.getElem?_append_right (Nat.le_add_right _ _),
            Nat.add_sub_cancel_left, List.getElem?_map, hget]
          rfl
        · simp only [StackHeight.fixupIdx, hfind]
        · intro e he hint
          cases hexp : m.exports with
          | none => rw [hexp] at he; exact absurd he (by simp)
          | some exps =>
            rw [hexp] at he
            simp only [Option.getD_some] at he
            simp only [StackHeight.appendThunks, StackHeight.withStackGlobal,
              hexp, Option.map_some', Option.getD_some]
            refine List.mem_map.2 ⟨e, he, ?_⟩
            simp only [StackHeight.fixupExport, hint, StackHeight.fixupIdx, hfind]
        · intro s hs
          cases helem : m.elements with
          | none => rw [helem] at hs; exact absurd hs (by simp)
          | some els =>
            rw [helem] at hs
            simp only [Option.getD_some] at hs
            simp only [StackHeight.appendThunks, StackHeight.withStackGlobal,
              helem, Option.map_some', Option.getD_some]
            exact List.mem_map.2 ⟨s, hs, rfl⟩

/-- C7 witness: `thunkInputModule` exports its only function, of stack
cost 1; the limiter synthesises the thunk and repoints the export. -/
theorem claimC7Witness :
    (thunkSHParts.costs[0]? = some 1)
  ∧ (∃ i t, thunkSHParts.rmap.findIdx? (fun q => q.1 = 0) = some i
      ∧ thunkSHParts.rmap[i]? = some (0, t)
      ∧ StackHeight.resolveFuncType 0 thunkInputModule = .ok t.signature
      ∧ t.calleeStackCost = 1
      ∧ (thunkSHParts.result.types.getD [])[(thunkInputModule.types.getD []).length + i]? =
          some t.signature
      ∧ (thunkSHParts.result.funcs.getD [])[(thunkInputModule.funcs.getD []).length + i]? =
          some ((thunkInputModule.types.getD []).length + i)
      ∧ (thunkSHParts.result.code.getD [])[(thunkInputModule.code.getD []).length + i]? =
          some { locals := [],
                 code := StackHeight.thunkBody 0 thunkInputModule.globalsSpace t
                   defaultStackRules.stackLimit }
      ∧ StackHeight.fixupIdx thunkSHParts.rmap thunkSHParts.base 0 = thunkSHParts.base + i
      ∧ (∀ e ∈ thunkInputModule.exports.getD [], e.internal = .func 0 →
          ({ field := e.field, internal := .func (thunkSHParts.base + i) } : ExportEntry)
            ∈ thunkSHParts.result.exports.getD [])
      ∧ (∀ s ∈ thunkInputModule.elements.getD [],
          ({ index := s.index, offset := s.offset,
             members := s.members.map
               (StackHeight.fixupIdx thunkSHParts.rmap thunkSHParts.base) } : ElementSegment)
            ∈ thunkSHParts.result.elements.getD [])) := by
  refine ⟨rfl, claimC7 thunkInputModule defaultStackRules thunkSHParts ?_ 0 1
    (by decide) rfl (by decide)⟩
  rfl

theorem sortedInsertPerm {α : Type} (le : α → α → Bool) (x : α) (l : List α) :
    List.Perm (sortedInsert le x l) (x :: l) := by
  induction l with
  | nil => exact List.Perm.refl _
  | cons y ys ih =>
    unfold sortedInsert
    split
    · exact (List.Perm.cons y ih).trans (List.Perm.swap x y ys)
    · exact List.Perm.refl _

theorem stableSortPermAux {α : Type} (le : α → α → Bool) :
    ∀ (l acc : List α),
      List.Perm (l.foldl (fun acc x => sortedInsert le x acc) acc) (acc ++ l) := by
  intro l
  induction l with
  | nil => intro acc; simp
  | cons a l ih =>
    intro acc
    rw [List.foldl_cons]
    refine (ih (sortedInsert le a acc)).trans ?_
    refine (List.Perm.append_right l (sortedInsertPerm le a acc)).trans ?_
    exact List.perm_middle.symm

theorem stableSortPerm {α : Type} (le : α → α → Bool) (l : List α) :
    List.Perm (stableSort le l) l := by
  simpa using stableSortPermAux le l []

theorem sortedInsertPairwise (x : Nat) (l : List Nat) (hl : l.Pairwise (· ≤ ·)) :
    (sortedInsert (fun a b => decide (a ≤ b)) x l).Pairwise (· ≤ ·) := by
  induction l with
  | nil => simp [sortedInsert]
  | cons y ys ih =>
    rw [List.pairwise_cons] at hl
    obtain ⟨hy, hys⟩ := hl
    unfold sortedInsert
    split
    next hle =>
      rw [List.pairwise_cons]
      refine ⟨?_, ih hys⟩
      intro b hb
      rcases List.mem_cons.1 ((sortedInsertPerm _ x ys).mem_iff.1 hb) with rfl | hby
      · exact of_decide_eq_true hle
      · exact hy b hby
    next hle =>
      have hxy : x ≤ y := Nat.le_of_not_le (fun hc => hle (decide_eq_true hc))
      rw [List.pairwise_cons]
      refine ⟨?_, List.pairwise_cons.2 ⟨hy, hys⟩⟩
      intro b hb
      rcases List.mem_cons.1 hb with rfl | hby
      · exact hxy
      · exact le_trans hxy (hy b hby)

theorem stableSortPairwiseAux :
    ∀ (l acc : List Nat), acc.Pairwise (· ≤ ·) →
      (l.foldl (fun acc x => sortedInsert (fun a b => decide (a ≤ b)) x acc)
        acc).Pairwise (· ≤ ·) := by
  intro l
  induction l with
  | nil => intro acc h; simpa using h
  | cons a l ih =>
    intro acc h
    rw [List.foldl_cons]
    exact ih _ (sortedInsertPairwise a acc h)

theorem stableSortPairwise (l : List Nat) :
    (stableSort (fun a b => decide (a ≤ b)) l).Pairwise (· ≤ ·) :=
  stableSortPairwiseAux l [] List.Pairwise.nil

theorem takeWhileLengthSorted (x : Nat) :
    ∀ l : List Nat, l.Pairwise (· ≤ ·) →
      (l.takeWhile (fun i => decide (i < x))).length
        = l.countP (fun i => decide (i < x)) := by
  intro l
  induction l with
  | nil => intro _; rfl
  | cons a l ih =>
    intro h
    rw [List.pairwise_cons] at h
    obtain ⟨ha, hl⟩ := h
    by_cases hax : a < x
    · rw [List.takeWhile_cons, List.countP_cons]
      simp [hax, ih hl]
    · have hcount : l.countP (fun i => decide (i < x)) = 0 := by
        rw [List.countP_eq_zero]
        intro b hb
        simp only [decide_eq_true_eq]
        intro hbx
        exact hax (Nat.lt_of_le_of_lt (ha b hb) hbx)
      rw [List.takeWhile_cons, List.countP_cons]
      simp [hax, hcount]

theorem countLt (l : List Nat) (x : Nat) :
    Optimizer.takeWhileCountLt (stableSort (fun a b => decide (a ≤ b)) l) x
      = l.countP (fun i => decide (i < x)) := by
  unfold Optimizer.takeWhileCountLt
  rw [takeWhileLengthSorted x _ (stableSortPairwise l)]
  exact (stableSortPerm _ l).countP_eq _

theorem updateCallIndexNSpec (el : List Nat) (s : NSeq) :
    Optimizer.updateCallIndexN el s =
      Optimizer.specDecCalls (fun x => x - Optimizer.takeWhileCountLt el x) s := by
  induction s <;> simp [Optimizer.updateCallIndexN, Optimizer.specDecCalls, *]

theorem updateGlobalIndexNSpec (el : List Nat) (s : NSeq) :
    Optimizer.updateGlobalIndexN el s =
      Optimizer.specDecGlobals (fun x => x - Optimizer.takeWhileCountLt el x) s := by
  induction s <;> simp [Optimizer.updateGlobalIndexN, Optimizer.specDecGlobals, *]

theorem specDecCallsId (d : Nat → Nat) (hd : ∀ x, d x = x) :
    ∀ s, Optimizer.specDecCalls d s = s := by
  intro s
  induction s <;> simp [Optimizer.specDecCalls, hd, *]

theorem specDecGlobalsId (d : Nat → Nat) (hd : ∀ x, d x = x) :
    ∀ s, Optimizer.specDecGlobals d s = s := by
  intro s
  induction s <;> simp [Optimizer.specDecGlobals, hd, *]

theorem mapIdPointwise {α : Type} {g : α → α} (h : ∀ a, g a = a) (l : List α) :
    l.map g = l := by
  induction l with
  | nil => rfl
  | cons a l ih => simp [h a, ih]

theorem optionMapMapId {α : Type} {g : α → α} (h : ∀ a, g a = a)
    (o : Option (List α)) : o.map (List.map g) = o := by
  cases o with
  | none => rfl
  | some l => rw [Option.map_some', mapIdPointwise h l]

/-- C5: when `optimize` succeeds, the result module is the
post-elimination (kept) module with every remaining referential index
decremented by exactly the number of eliminated indices strictly less
than it in its combined index space — call targets and element-segment
members by the eliminated function indices (import entries counted
before defined entries), get_global/set_global targets in bodies and in
initializer expressions by the eliminated global indices, type
references in function-section entries and function imports by the
eliminated type indices, and export internals by their respective
spaces; the types section itself is untouched. -/
theorem claimC5 (m : OModule) (usedExports : List String) (p : Optimizer.OptParts)
    (h : Optimizer.optimizeParts m usedExports = .ok p) :
    p.result.types = p.kept.types
  ∧ p.result.funcs = p.kept.funcs.map (List.map (fun t =>
      t - p.elimTypes.countP (fun i => decide (i < t))))
  ∧ p.result.imports = p.kept.imports.map (List.map (fun e =>
      match e.desc with
      | .func t =>
        { e with desc := ExternalDesc.func (t -
            p.elimTypes.countP (fun i => decide (i < t))) }
      | _ => e))
  ∧ p.result.code = p.kept.code.map (List.map (fun b =>
      { b with code := (Optimizer.specDecGlobals
          (fun x => x - (p.elimGlobalsImports ++ p.elimGlobalsDefined).countP
            (fun i => decide (i < x)))
          (Optimizer.specDecCalls
            (fun x => x - (p.elimFuncsImports ++ p.elimFuncsDefined).countP
              (fun i => decide (i < x))) b.code)) }))
  ∧ p.result.exports = p.kept.exports.map (List.map (fun e =>
      match e.internal with
      | .func x =>
        { e with internal := ExportInternal.func (x -
            (p.elimFuncsImports ++ p.elimFuncsDefined).countP
              (fun i => decide (i < x))) }
      | .global x =>
        { e with internal := ExportInternal.global (x -
            (p.elimGlobalsImports ++ p.elimGlobalsDefined).countP
              (fun i => decide (i < x))) }
      | _ => e))
  ∧ p.result.globals = p.kept.globals.map (List.map (fun g =>
      { g with init := (Optimizer.specDecGlobals
          (fun x => x - (p.elimGlobalsImports ++ p.elimGlobalsDefined).countP
            (fun i => decide (i < x))) g.init) }))
  ∧ p.result.data = p.kept.data.map (List.map (fun s =>
      { s with offset := (Optimizer.specDecGlobals
          (fun x => x - (p.elimGlobalsImports ++ p.elimGlobalsDefined).countP
            (fun i => decide (i < x))) s.offset) }))
  ∧ p.result.elements = p.kept.elements.map (List.map (fun s =>
      { s with
        offset := (Optimizer.specDecGlobals
          (fun x => x - (p.elimGlobalsImports ++ p.elimGlobalsDefined).countP
            (fun i => decide (i < x))) s.offset),
        members := s.members.map (fun x =>
          x - (p.elimFuncsImports ++ p.elimFuncsDefined).countP
            (fun i => decide (i < x))) })) := by
  simp only [Optimizer.optimizeParts] at h
  split at h
  · exact absurd h (by simp)
  · rename_i exports hexp
    cases hseed : Optimizer.seedAndExpand m usedExports exports with
    | error e => rw [hseed] at h; exact absurd h (by simp [bind, Except.bind])
    | ok stay =>
      rw [hseed] at h
      simp only [bind, Except.bind] at h
      simp only [Optimizer.elimAndRewire, bind, Except.bind] at h
      split at h
      · exact absurd h (by simp)
      · rename_i types htypes
        split at h
        · exact absurd h (by simp)
        · rename_i imports himps
          split at h
          · exact absurd h (by simp)
          · split at h
            · exact absurd h (by simp)
            · rename_i globals hglobals
              split at h
              · exact absurd h (by simp)
              · rename_i funcs hfuncs
                split at h
                · exact absurd h (by simp)
                · rename_i fl hflEq
                  obtain rfl := (Except.ok.inj h).symm
                  simp only [Optimizer.assembleParts]
                  split
                  · refine ⟨rfl, ?_, ?_, ?_, ?_, ?_, ?_, ?_⟩ <;>
                      simp only [Optimizer.rewire, updateCallIndexNSpec,
                        updateGlobalIndexNSpec, countLt]
                  · rename_i hcond
                    push_neg at hcond
                    obtain ⟨h1, h2, h3⟩ := hcond
                    obtain ⟨hgi, hgd⟩ :=
                      List.append_eq_nil.1 (List.length_eq_zero.1 (Nat.le_zero.1 h1))
                    obtain ⟨hfi, hfd⟩ :=
                      List.append_eq_nil.1 (List.length_eq_zero.1 (Nat.le_zero.1 h2))
                    have ht := List.length_eq_zero.1 (Nat.le_zero.1 h3)
                    refine ⟨rfl, ?_, ?_, ?_, ?_, ?_, ?_, ?_⟩ <;>
                      simp only [hgi, hgd, hfi, hfd, ht, List.nil_append,
                        List.countP_nil, Nat.sub_zero]
                    · exact (optionMapMapId (fun t => rfl) _).symm
                    · refine (optionMapMapId (fun e => ?_) _).symm
                      obtain ⟨mo, fi, de⟩ := e
                      cases de <;> rfl
                    · refine (optionMapMapId (fun b => ?_) _).symm
                      rw [specDecCallsId _ (fun x => rfl),
                        specDecGlobalsId _ (fun x => rfl)]
                    · refine (optionMapMapId (fun e => ?_) _).symm
                      obtain ⟨fi, int⟩ := e
                      cases int <;> rfl
                    · refine (optionMapMapId (fun g => ?_) _).symm
                      rw [specDecGlobalsId _ (fun x => rfl)]
                    · refine (optionMapMapId (fun s => ?_) _).symm
                      rw [specDecGlobalsId _ (fun x => rfl)]
                    · refine (optionMapMapId (fun s => ?_) _).symm
                      rw [specDecGlobalsId _ (fun x => rfl),
                        mapIdPointwise (fun x => rfl)]

/-- C5 witness: on `optInputModule` with keep-list `["keep"]`, function 1
is eliminated and every section of the result is the kept module with
the countP decrement applied. -/
theorem claimC5Witness :
    optPartsKeep.result.types = optPartsKeep.kept.types
  ∧ optPartsKeep.result.funcs = optPartsKeep.kept.funcs.map (List.map (fun t =>
      t - optPartsKeep.elimTypes.countP (fun i => decide (i < t))))
  ∧ optPartsKeep.result.imports = optPartsKeep.kept.imports.map (List.map (fun e =>
      match e.desc with
      | .func t =>
        { e with desc := ExternalDesc.func (t -
            optPartsKeep.elimTypes.countP (fun i => decide (i < t))) }
      | _ => e))
  ∧ optPartsKeep.result.code = optPartsKeep.kept.code.map (List.map (fun b =>
      { b with code := (Optimizer.specDecGlobals
          (fun x => x - (optPartsKeep.elimGlobalsImports ++
            optPartsKeep.elimGlobalsDefined).countP (fun i => decide (i < x)))
          (Optimizer.specDecCalls
            (fun x => x - (optPartsKeep.elimFuncsImports ++
              optPartsKeep.elimFuncsDefined).countP
                (fun i => decide (i < x))) b.code)) }))
  ∧ optPartsKeep.result.exports = optPartsKeep.kept.exports.map (List.map (fun e =>
      match e.internal with
      | .func x =>
        { e with internal := ExportInternal.func (x -
            (optPartsKeep.elimFuncsImports ++ optPartsKeep.elimFuncsDefined).countP
              (fun i => decide (i < x))) }
      | .global x =>
        { e with internal := ExportInternal.global (x -
            (optPartsKeep.elimGlobalsImports ++ optPartsKeep.elimGlobalsDefined).countP
              (fun i => decide (i < x))) }
      | _ => e))
  ∧ optPartsKeep.result.globals = optPartsKeep.kept.globals.map (List.map (fun g =>
      { g with init := (Optimizer.specDecGlobals
          (fun x => x - (optPartsKeep.elimGlobalsImports ++
            optPartsKeep.elimGlobalsDefined).countP
              (fun i => decide (i < x))) g.init) }))
  ∧ optPartsKeep.result.data = optPartsKeep.kept.data.map (List.map (fun s =>
      { s with offset := (Optimizer.specDecGlobals
          (fun x => x - (optPartsKeep.elimGlobalsImports ++
            optPartsKeep.elimGlobalsDefined).countP
              (fun i => decide (i < x))) s.offset) }))
  ∧ optPartsKeep.result.elements = optPartsKeep.kept.elements.map (List.map (fun s =>
      { s with
        offset := (Optimizer.specDecGlobals
          (fun x => x - (optPartsKeep.elimGlobalsImports ++
            optPartsKeep.elimGlobalsDefined).countP
              (fun i => decide (i < x))) s.offset),
        members := s.members.map (fun x =>
          x - (optPartsKeep.elimFuncsImports ++ optPartsKeep.elimFuncsDefined).countP
            (fun i => decide (i < x))) })) := by
  refine claimC5 optInputModule ["keep"] optPartsKeep ?_
  rfl

end WasmUtils
